import Mathlib

/-!
Verification of the screen-element grounding engine (`grounding_service`):
a shallow embedding in Lean 4 of the repository's coordinate utilities,
model-answer parsing, image tiling, fuzzy OCR text resolution, screenshot
fingerprinting, the session cache / background-OCR state machine, and the
inference serialization lock, together with theorems settling the spec's
claims about them.

Conventions: Python `int` is `ℤ` (or `ℕ` where the source guarantees
non-negativity), Python `float` arithmetic is modelled exactly over `ℚ`
(the source only forms ratios, absolute differences, floors and
comparisons of decimally-given quantities), strings are `List Char`, and
Python's `//` on non-negative ints is `Nat` division / `Int.fdiv`.
-/

namespace Grounding

/-! ## coordinates.py : scale_norm_to_pixels -/

/-- Embedding of `coordinates.scale_norm_to_pixels`:
`x_px = int(math.floor((x_norm / 1000.0) * width))` clamped by
`max(0, min(width - 1, x_px))`, and likewise for `y`. -/
def scale_norm_to_pixels (x_norm y_norm : ℚ) (width height : ℤ) : ℤ × ℤ :=
  let x_px : ℤ := ⌊x_norm / 1000 * (width : ℚ)⌋
  let y_px : ℤ := ⌊y_norm / 1000 * (height : ℚ)⌋
  (max 0 (min (width - 1) x_px), max 0 (min (height - 1) y_px))

/-! ## coordinates.py : answer-pattern extraction

`POINT_PATTERN = \[\[\s*N\s*,\s*N\s*\]\]` and
`BBOX_PATTERN = \[\[\s*N\s*,\s*N\s*,\s*N\s*,\s*N\s*\]\]` with
`N = \d+(?:\.\d+)?`.  For these patterns the regex engine's behaviour is
deterministic maximal-munch parsing tried at each successive start
position (`re.search` = leftmost match, `finditer` = non-overlapping
leftmost matches), which is what the definitions below implement. -/

/-- Python `\s` whitespace (ASCII range, as produced by the model answers). -/
def isPySpace (c : Char) : Bool :=
  c = ' ' ∨ c = '\t' ∨ c = '\n' ∨ c = '\r' ∨ c = '\x0b' ∨ c = '\x0c'

/-- Skip `\s*`. -/
def skipWs (s : List Char) : List Char := s.dropWhile isPySpace

/-- `\d+`: the maximal nonempty run of leading digits, with the rest. -/
def takeDigits (s : List Char) : Option (List Char × List Char) :=
  let ds := s.takeWhile Char.isDigit
  if ds.isEmpty then none else some (ds, s.dropWhile Char.isDigit)

/-- Numeric value of a digit string. -/
def digitsVal (ds : List Char) : ℕ :=
  ds.foldl (fun acc c => 10 * acc + (c.toNat - '0'.toNat)) 0

/-- The text matched by one `\d+(?:\.\d+)?` group: integer-part digits
and optional fractional-part digits. -/
structure NumTok where
  intPart : List Char
  fracPart : Option (List Char)
deriving DecidableEq, Repr

/-- `float(...)` applied to a matched number group, modelled exactly over
`ℚ`. -/
def NumTok.toRat (n : NumTok) : ℚ :=
  (digitsVal n.intPart : ℚ) +
    match n.fracPart with
    | some fs => (digitsVal fs : ℚ) / ((10 : ℚ) ^ fs.length)
    | none => 0

/-- `\d+(?:\.\d+)?` with maximal munch (the regex's behaviour on these
patterns); returns the matched group and the unconsumed rest. -/
def takeNumber (s : List Char) : Option (NumTok × List Char) := do
  let (ds, r) ← takeDigits s
  match r with
  | '.' :: r2 =>
    match takeDigits r2 with
    | some (fs, r3) => pure (⟨ds, some fs⟩, r3)
    | none => pure (⟨ds, none⟩, r)
  | _ => pure (⟨ds, none⟩, r)

/-- Consume one expected literal character. -/
def expectChar (c : Char) : List Char → Option (List Char)
  | x :: r => if x = c then some r else none
  | [] => none

/-- Attempt to match `POINT_PATTERN` at the start of `s`; on success the
two number groups and the unconsumed rest. -/
def matchPointAt (s : List Char) : Option ((NumTok × NumTok) × List Char) := do
  let r ← expectChar '[' s
  let r ← expectChar '[' r
  let (x, r) ← takeNumber (skipWs r)
  let r ← expectChar ',' (skipWs r)
  let (y, r) ← takeNumber (skipWs r)
  let r ← expectChar ']' (skipWs r)
  let r ← expectChar ']' r
  pure ((x, y), r)

/-- Attempt to match `BBOX_PATTERN` at the start of `s`. -/
def matchBboxAt (s : List Char) : Option ((NumTok × NumTok × NumTok × NumTok) × List Char) := do
  let r ← expectChar '[' s
  let r ← expectChar '[' r
  let (x1, r) ← takeNumber (skipWs r)
  let r ← expectChar ',' (skipWs r)
  let (y1, r) ← takeNumber (skipWs r)
  let r ← expectChar ',' (skipWs r)
  let (x2, r) ← takeNumber (skipWs r)
  let r ← expectChar ',' (skipWs r)
  let (y2, r) ← takeNumber (skipWs r)
  let r ← expectChar ']' (skipWs r)
  let r ← expectChar ']' r
  pure ((x1, y1, x2, y2), r)

/-- `POINT_PATTERN.search(text)`: the match at the leftmost position
where the pattern matches, if any. -/
def pointSearch : List Char → Option (NumTok × NumTok)
  | [] => none
  | c :: rest =>
    match matchPointAt (c :: rest) with
    | some (p, _) => some p
    | none => pointSearch rest

/-- Embedding of `coordinates.extract_first_point`: the first
point-pattern occurrence, with `float(...)` applied to both groups. -/
def extract_first_point (s : List Char) : Option (ℚ × ℚ) :=
  (pointSearch s).map fun (x, y) => (x.toRat, y.toRat)

/-- All `BBOX_PATTERN.finditer(text)` matches in order (non-overlapping,
leftmost first); fuelled structural recursion, `fuel ≥ length` suffices
since every step consumes at least one character. -/
def bboxScanF : ℕ → List Char → List (NumTok × NumTok × NumTok × NumTok)
  | 0, _ => []
  | _ + 1, [] => []
  | fuel + 1, c :: rest =>
    match matchBboxAt (c :: rest) with
    | some (v, remaining) => v :: bboxScanF fuel remaining
    | none => bboxScanF fuel rest

/-- The list of bbox-pattern occurrences of `finditer`, in order. -/
def bboxMatches (s : List Char) : List (NumTok × NumTok × NumTok × NumTok) :=
  bboxScanF s.length s

/-- Embedding of `coordinates.extract_last_bbox`: the last `finditer`
match (`matches[-1]`), with `float(...)` applied to all four groups. -/
def extract_last_bbox (s : List Char) : Option (ℚ × ℚ × ℚ × ℚ) :=
  ((bboxMatches s).getLast?).map fun (x1, y1, x2, y2) =>
    (x1.toRat, y1.toRat, x2.toRat, y2.toRat)

/-- Embedding of the answer-parsing step of
`InternVLModel._predict_sync` (vision_internvl.py lines 213-220): first
point-pattern occurrence if any, else the centre of the last bbox-pattern
occurrence, else `none`. -/
def parse_answer (s : List Char) : Option (ℚ × ℚ) :=
  match extract_first_point s with
  | some p => some p
  | none =>
    match extract_last_bbox s with
    | some (x1, y1, x2, y2) => some ((x1 + x2) / 2, (y1 + y2) / 2)
    | none => none

/-- The tail of `InternVLModel._predict_sync`: parse the model's answer
and map normalized coordinates to pixels; `none` when neither pattern is
present (the caller maps this to a resolution failure). -/
def predict_from_answer (answer : List Char) (width height : ℤ) : Option (ℤ × ℤ) :=
  match parse_answer answer with
  | none => none
  | some (x_norm, y_norm) => some (scale_norm_to_pixels x_norm y_norm width height)

/-! ## Theorems for claims C3 and C5 -/

/-- C3. Normalized-to-pixel scaling: for every normalized coordinate pair
and positive width and height, the pixel coordinate is
`floor(norm / 1000 * dimension)` clamped independently per axis to
`[0, dimension-1]`; concretely `scale(500,500,1000,800) = (500,400)` and
`scale(1000,1000,1000,800) = (999,799)`. -/
theorem C3_scale_norm_to_pixels :
    (∀ (xn yn : ℚ) (w h : ℤ), 0 < w → 0 < h →
      scale_norm_to_pixels xn yn w h =
        (min (w - 1) (max 0 ⌊xn / 1000 * (w : ℚ)⌋),
         min (h - 1) (max 0 ⌊yn / 1000 * (h : ℚ)⌋)) ∧
      0 ≤ (scale_norm_to_pixels xn yn w h).1 ∧
      (scale_norm_to_pixels xn yn w h).1 ≤ w - 1 ∧
      0 ≤ (scale_norm_to_pixels xn yn w h).2 ∧
      (scale_norm_to_pixels xn yn w h).2 ≤ h - 1) ∧
    scale_norm_to_pixels 500 500 1000 800 = (500, 400) ∧
    scale_norm_to_pixels 1000 1000 1000 800 = (999, 799) := by
  refine ⟨fun xn yn w h hw hh => ?_, by norm_num [scale_norm_to_pixels],
    by norm_num [scale_norm_to_pixels]⟩
  simp only [scale_norm_to_pixels]
  constructor
  · have : ∀ a b : ℤ, 0 < a → max 0 (min (a - 1) b) = min (a - 1) (max 0 b) := by
      intro a b ha; omega
    rw [this w _ hw, this h _ hh]
  · refine ⟨le_max_left _ _, ?_, le_max_left _ _, ?_⟩ <;>
      simp only [max_le_iff, min_le_iff] <;> omega

/-- Witness for C3 at a concrete input. -/
theorem C3_scale_norm_to_pixels_witness :
    0 ≤ (scale_norm_to_pixels 500 500 1000 800).1 :=
  (C3_scale_norm_to_pixels.1 500 500 1000 800 (by norm_num) (by norm_num)).2.1

/-- C5. Answer-parsing precedence: the parser returns the first
point-pattern occurrence when one is present; otherwise the centre of the
last bbox-pattern occurrence when at least one is present; otherwise
`none` (and then the predictor yields no coordinates, which the caller
maps to a no-match failure).  Concrete cases pin the first/last
semantics and the precedence of points over earlier bboxes. -/
theorem C5_answer_parsing_precedence :
    (∀ s p, extract_first_point s = some p → parse_answer s = some p) ∧
    (∀ s x1 y1 x2 y2, extract_first_point s = none →
      extract_last_bbox s = some (x1, y1, x2, y2) →
      parse_answer s = some ((x1 + x2) / 2, (y1 + y2) / 2)) ∧
    (∀ s, extract_first_point s = none → extract_last_bbox s = none →
      parse_answer s = none) ∧
    (∀ s w h, parse_answer s = none → predict_from_answer s w h = none) ∧
    parse_answer "[[1, 2]] and [[3, 4]]".data = some (1, 2) ∧
    parse_answer "[[1, 2, 3, 4]] [[9, 8]]".data = some (9, 8) ∧
    parse_answer "[[1, 2, 3, 4]] [[5, 6, 7, 8]]".data = some (6, 7) ∧
    parse_answer "no coordinates here".data = none := by
  refine ⟨fun s p h => by simp [parse_answer, h],
    fun s x1 y1 x2 y2 h1 h2 => by simp [parse_answer, h1, h2],
    fun s h1 h2 => by simp [parse_answer, h1, h2],
    fun s w h hp => by simp [predict_from_answer, hp], ?_, ?_, ?_, ?_⟩
  · have h : pointSearch "[[1, 2]] and [[3, 4]]".data =
        some (⟨['1'], none⟩, ⟨['2'], none⟩) := by decide
    rw [parse_answer, extract_first_point, h]
    norm_num [NumTok.toRat, digitsVal,
      show '1'.toNat - '0'.toNat = 1 from by decide,
      show '2'.toNat - '0'.toNat = 2 from by decide]
  · have h : pointSearch "[[1, 2, 3, 4]] [[9, 8]]".data =
        some (⟨['9'], none⟩, ⟨['8'], none⟩) := by decide
    rw [parse_answer, extract_first_point, h]
    norm_num [NumTok.toRat, digitsVal,
      show '9'.toNat - '0'.toNat = 9 from by decide,
      show '8'.toNat - '0'.toNat = 8 from by decide]
  · have h1 : pointSearch "[[1, 2, 3, 4]] [[5, 6, 7, 8]]".data = none := by decide
    have h2 : (bboxMatches "[[1, 2, 3, 4]] [[5, 6, 7, 8]]".data).getLast? =
        some (⟨['5'], none⟩, ⟨['6'], none⟩, ⟨['7'], none⟩, ⟨['8'], none⟩) := by decide
    rw [parse_answer, extract_first_point, h1, extract_last_bbox, h2]
    norm_num [NumTok.toRat, digitsVal,
      show '5'.toNat - '0'.toNat = 5 from by decide,
      show '6'.toNat - '0'.toNat = 6 from by decide,
      show '7'.toNat - '0'.toNat = 7 from by decide,
      show '8'.toNat - '0'.toNat = 8 from by decide]
  · have h1 : pointSearch "no coordinates here".data = none := by decide
    have h2 : (bboxMatches "no coordinates here".data).getLast? = none := by decide
    rw [parse_answer, extract_first_point, h1, extract_last_bbox, h2]
    rfl

/-- Witness for C5 at a concrete input. -/
theorem C5_answer_parsing_precedence_witness :
    parse_answer "x [[3, 4]]".data = some (3, 4) :=
  C5_answer_parsing_precedence.1 "x [[3, 4]]".data (3, 4) (by
    have h : pointSearch "x [[3, 4]]".data = some (⟨['3'], none⟩, ⟨['4'], none⟩) := by decide
    rw [extract_first_point, h]
    norm_num [NumTok.toRat, digitsVal,
      show '3'.toNat - '0'.toNat = 3 from by decide,
      show '4'.toNat - '0'.toNat = 4 from by decide])

/-! ## Claim C10: the point pattern never matches a bbox-only answer

A bbox-only model answer is rendered as an interleaving of filler text
containing no `'['` and four-number groups `[[d1, d2, d3, d4]]`. -/

/-- A fragment of a bbox-only model answer. -/
inductive AnswerChunk where
  | lit (t : List Char)
  | box (d1 d2 d3 d4 : List Char)
deriving DecidableEq

/-- Render one fragment; boxes in the `[[d1, d2, d3, d4]]` shape the
grounding prompt requests. -/
def renderChunk : AnswerChunk → List Char
  | .lit t => t
  | .box d1 d2 d3 d4 =>
    '[' :: '[' :: (d1 ++ ',' :: ' ' :: (d2 ++ ',' :: ' ' :: (d3 ++ ',' :: ' ' :: (d4 ++ [']', ']']))))

/-- Render a whole bbox-only answer. -/
def renderAnswer (cs : List AnswerChunk) : List Char := cs.flatMap renderChunk

/-- Well-formedness: filler contains no `'['` (so every double-bracketed
group of the answer is one of the four-number groups), and each group
member is a nonempty digit string. -/
def goodChunk : AnswerChunk → Prop
  | .lit t => ∀ c ∈ t, c ≠ '['
  | .box d1 d2 d3 d4 =>
    (d1 ≠ [] ∧ ∀ c ∈ d1, c.isDigit) ∧ (d2 ≠ [] ∧ ∀ c ∈ d2, c.isDigit) ∧
    (d3 ≠ [] ∧ ∀ c ∈ d3, c.isDigit) ∧ (d4 ≠ [] ∧ ∀ c ∈ d4, c.isDigit)

theorem digit_ne_lbrack (x : Char) (hx : x.isDigit = true) : x ≠ '[' := by
  rintro rfl
  exact absurd hx (by decide)

theorem digit_not_space (c : Char) (hc : c.isDigit = true) : isPySpace c = false := by
  rw [isPySpace]
  simp only [decide_eq_false_iff_not]
  rintro (rfl | rfl | rfl | rfl | rfl | rfl) <;> exact absurd hc (by decide)

theorem matchPointAt_cons_ne (c : Char) (s : List Char) (hc : c ≠ '[') :
    matchPointAt (c :: s) = none := by
  simp [matchPointAt, expectChar, hc]

theorem matchPointAt_cons_cons_ne (c c2 : Char) (s : List Char) (hc : c2 ≠ '[') :
    matchPointAt (c :: c2 :: s) = none := by
  by_cases h1 : c = '['
  · subst h1
    simp [matchPointAt, expectChar, hc]
  · simp [matchPointAt, expectChar, h1]

theorem matchBboxAt_cons_ne (c : Char) (s : List Char) (hc : c ≠ '[') :
    matchBboxAt (c :: s) = none := by
  simp [matchBboxAt, expectChar, hc]

/-- Scanning for the point pattern skips any `'['`-free prefix. -/
theorem pointSearch_append_lit (t rest : List Char) (ht : ∀ c ∈ t, c ≠ '[') :
    pointSearch (t ++ rest) = pointSearch rest := by
  induction t with
  | nil => rfl
  | cons c t ih =>
    have hc : c ≠ '[' := ht c (List.mem_cons_self c t)
    rw [List.cons_append, pointSearch, matchPointAt_cons_ne c (t ++ rest) hc]
    exact ih fun x hx => ht x (List.mem_cons_of_mem _ hx)

theorem skipWs_not_space (c : Char) (s : List Char) (hc : isPySpace c = false) :
    skipWs (c :: s) = c :: s := by
  simp [skipWs, List.dropWhile_cons, hc]

theorem skipWs_space (c : Char) (s : List Char) (hc : isPySpace c = true) :
    skipWs (c :: s) = skipWs s := by
  simp [skipWs, List.dropWhile_cons, hc]

/-- A nonempty digit run followed by a non-digit character is consumed
exactly by `takeDigits`. -/
theorem takeDigits_run (d : List Char) (c : Char) (r : List Char)
    (hne : d ≠ []) (hd : ∀ x ∈ d, x.isDigit) (hc : c.isDigit = false) :
    takeDigits (d ++ c :: r) = some (d, c :: r) := by
  have htw : (d ++ c :: r).takeWhile Char.isDigit = d ∧
      (d ++ c :: r).dropWhile Char.isDigit = c :: r := by
    clear hne
    induction d with
    | nil => simp [List.takeWhile_cons, List.dropWhile_cons, hc]
    | cons x d ih =>
      have hx : x.isDigit = true := hd x (List.mem_cons_self x d)
      have := ih fun y hy => hd y (List.mem_cons_of_mem _ hy)
      simp [List.takeWhile_cons, List.dropWhile_cons, hx, this.1, this.2]
  simp [takeDigits, htw.1, htw.2, hne]

/-- `takeNumber` on a digit run followed by a non-digit, non-dot
character takes just the run. -/
theorem takeNumber_run (d : List Char) (c : Char) (r : List Char)
    (hne : d ≠ []) (hd : ∀ x ∈ d, x.isDigit) (hc : c.isDigit = false) (hdot : c ≠ '.') :
    takeNumber (d ++ c :: r) = some (⟨d, none⟩, c :: r) := by
  rw [takeNumber, takeDigits_run d c r hne hd hc]
  simp only [Option.bind_eq_bind, Option.some_bind]
  split
  · next heq =>
    exact absurd (List.head_eq_of_cons_eq heq) hdot
  · rfl

theorem expectChar_cons_eq (c : Char) (s : List Char) : expectChar c (c :: s) = some s := by
  simp [expectChar]

theorem expectChar_cons_of_ne (c x : Char) (s : List Char) (hx : x ≠ c) :
    expectChar c (x :: s) = none := by
  simp [expectChar, hx]

theorem skipWs_digit_run (d : List Char) (r : List Char)
    (hne : d ≠ []) (hd : ∀ x ∈ d, x.isDigit) :
    skipWs (d ++ r) = d ++ r := by
  cases d with
  | nil => exact absurd rfl hne
  | cons x d =>
    exact skipWs_not_space x (d ++ r) (digit_not_space x (hd x (List.mem_cons_self x d)))

/-- The point pattern does not match at the start of a rendered box: after
its second number comes `','`, not `']]'`. -/
theorem matchPointAt_box (d1 d2 d3 d4 rest : List Char)
    (h : goodChunk (.box d1 d2 d3 d4)) :
    matchPointAt (renderChunk (.box d1 d2 d3 d4) ++ rest) = none := by
  obtain ⟨⟨h1ne, h1d⟩, ⟨h2ne, h2d⟩, _, _⟩ := h
  simp only [renderChunk, List.cons_append, List.append_assoc, List.nil_append]
  rw [matchPointAt]
  simp only [Option.bind_eq_bind]
  rw [expectChar_cons_eq]
  simp only [Option.some_bind]
  rw [expectChar_cons_eq]
  simp only [Option.some_bind]
  rw [skipWs_digit_run d1 _ h1ne h1d,
    takeNumber_run d1 ',' _ h1ne h1d (by decide) (by decide)]
  simp only [Option.some_bind]
  rw [skipWs_not_space ',' _ (by decide), expectChar_cons_eq]
  simp only [Option.some_bind]
  rw [skipWs_space ' ' _ (by decide), skipWs_digit_run d2 _ h2ne h2d,
    takeNumber_run d2 ',' _ h2ne h2d (by decide) (by decide)]
  simp only [Option.some_bind]
  rw [skipWs_not_space ',' _ (by decide), expectChar_cons_of_ne ']' ',' _ (by decide)]
  simp only [Option.none_bind]

/-- The bbox pattern matches a rendered box exactly, leaving the rest. -/
theorem matchBboxAt_box (d1 d2 d3 d4 rest : List Char)
    (h : goodChunk (.box d1 d2 d3 d4)) :
    matchBboxAt (renderChunk (.box d1 d2 d3 d4) ++ rest) =
      some ((⟨d1, none⟩, ⟨d2, none⟩, ⟨d3, none⟩, ⟨d4, none⟩), rest) := by
  obtain ⟨⟨h1ne, h1d⟩, ⟨h2ne, h2d⟩, ⟨h3ne, h3d⟩, ⟨h4ne, h4d⟩⟩ := h
  simp only [renderChunk, List.cons_append, List.append_assoc, List.nil_append]
  rw [matchBboxAt]
  simp only [Option.bind_eq_bind]
  rw [expectChar_cons_eq]
  simp only [Option.some_bind]
  rw [expectChar_cons_eq]
  simp only [Option.some_bind]
  rw [skipWs_digit_run d1 _ h1ne h1d,
    takeNumber_run d1 ',' _ h1ne h1d (by decide) (by decide)]
  simp only [Option.some_bind]
  rw [skipWs_not_space ',' _ (by decide), expectChar_cons_eq]
  simp only [Option.some_bind]
  rw [skipWs_space ' ' _ (by decide), skipWs_digit_run d2 _ h2ne h2d,
    takeNumber_run d2 ',' _ h2ne h2d (by decide) (by decide)]
  simp only [Option.some_bind]
  rw [skipWs_not_space ',' _ (by decide), expectChar_cons_eq]
  simp only [Option.some_bind]
  rw [skipWs_space ' ' _ (by decide), skipWs_digit_run d3 _ h3ne h3d,
    takeNumber_run d3 ',' _ h3ne h3d (by decide) (by decide)]
  simp only [Option.some_bind]
  rw [skipWs_not_space ',' _ (by decide), expectChar_cons_eq]
  simp only [Option.some_bind]
  rw [skipWs_space ' ' _ (by decide), skipWs_digit_run d4 _ h4ne h4d,
    takeNumber_run d4 ']' _ h4ne h4d (by decide) (by decide)]
  simp only [Option.some_bind]
  rw [skipWs_not_space ']' _ (by decide), expectChar_cons_eq]
  simp only [Option.some_bind]
  rw [expectChar_cons_eq]
  rfl

/-- Every character of the inner part of a rendered box (past the two
leading brackets) is a digit or one of `','`, `' '`, `']'`. -/
theorem box_inner_chars (d1 d2 d3 d4 : List Char)
    (g1 : ∀ x ∈ d1, x.isDigit = true) (g2 : ∀ x ∈ d2, x.isDigit = true)
    (g3 : ∀ x ∈ d3, x.isDigit = true) (g4 : ∀ x ∈ d4, x.isDigit = true) :
    ∀ c ∈ d1 ++ ',' :: ' ' :: (d2 ++ ',' :: ' ' :: (d3 ++ ',' :: ' '
      :: (d4 ++ [']', ']']))), c ≠ '[' := by
  intro c hc
  have : (c ∈ d1 ∨ c ∈ d2 ∨ c ∈ d3 ∨ c ∈ d4) ∨ (c = ',' ∨ c = ' ' ∨ c = ']') := by
    simp only [List.mem_append, List.mem_cons, List.mem_singleton,
      List.not_mem_nil, or_false] at hc
    tauto
  rcases this with (h' | h' | h' | h') | (rfl | rfl | rfl)
  · exact digit_ne_lbrack c (g1 c h')
  · exact digit_ne_lbrack c (g2 c h')
  · exact digit_ne_lbrack c (g3 c h')
  · exact digit_ne_lbrack c (g4 c h')
  · decide
  · decide
  · decide

/-- The point pattern does not match at a leading `'['` followed by a
digit run. -/
theorem matchPointAt_lb_digit (d X : List Char) (hne : d ≠ [])
    (hd : ∀ c ∈ d, c.isDigit) :
    matchPointAt ('[' :: (d ++ X)) = none := by
  cases d with
  | nil => exact absurd rfl hne
  | cons x t =>
    simp only [List.cons_append]
    exact matchPointAt_cons_cons_ne '[' x _
      (digit_ne_lbrack x (hd x (List.mem_cons_self x t)))

/-- Scanning skips a whole rendered box. -/
theorem pointSearch_append_box (d1 d2 d3 d4 rest : List Char)
    (h : goodChunk (.box d1 d2 d3 d4)) :
    pointSearch (renderChunk (.box d1 d2 d3 d4) ++ rest) = pointSearch rest := by
  have hfail := matchPointAt_box d1 d2 d3 d4 rest h
  obtain ⟨⟨h1ne, h1d⟩, ⟨_, h2d⟩, ⟨_, h3d⟩, ⟨_, h4d⟩⟩ := h
  simp only [renderChunk, List.cons_append, List.append_assoc, List.nil_append] at hfail ⊢
  rw [pointSearch, hfail]
  simp only []
  rw [pointSearch, matchPointAt_lb_digit d1 _ h1ne h1d]
  simp only []
  have happ := pointSearch_append_lit
    (d1 ++ ',' :: ' ' :: (d2 ++ ',' :: ' ' :: (d3 ++ ',' :: ' ' :: (d4 ++ [']', ']'])))) rest
    (box_inner_chars d1 d2 d3 d4 h1d h2d h3d h4d)
  simpa only [List.append_assoc, List.cons_append] using happ

instance goodChunk_decidable : (ch : AnswerChunk) → Decidable (goodChunk ch)
  | .lit t => inferInstanceAs (Decidable (∀ c ∈ t, c ≠ '['))
  | .box d1 d2 d3 d4 =>
    inferInstanceAs (Decidable ((d1 ≠ [] ∧ ∀ c ∈ d1, c.isDigit) ∧
      (d2 ≠ [] ∧ ∀ c ∈ d2, c.isDigit) ∧ (d3 ≠ [] ∧ ∀ c ∈ d3, c.isDigit) ∧
      (d4 ≠ [] ∧ ∀ c ∈ d4, c.isDigit)))

theorem renderAnswer_cons (ch : AnswerChunk) (cs : List AnswerChunk) :
    renderAnswer (ch :: cs) = renderChunk ch ++ renderAnswer cs := by
  simp [renderAnswer]

/-- The point scan of any well-formed bbox-only answer fails. -/
theorem pointSearch_renderAnswer (cs : List AnswerChunk)
    (hg : ∀ ch ∈ cs, goodChunk ch) :
    pointSearch (renderAnswer cs) = none := by
  induction cs with
  | nil => rfl
  | cons ch cs ih =>
    rw [renderAnswer_cons]
    have hch := hg ch (List.mem_cons_self ch cs)
    have hrest := ih fun x hx => hg x (List.mem_cons_of_mem _ hx)
    cases ch with
    | lit t =>
      simp only [renderChunk]
      rw [pointSearch_append_lit t _ hch]
      exact hrest
    | box d1 d2 d3 d4 => rw [pointSearch_append_box d1 d2 d3 d4 _ hch]; exact hrest

theorem matchBboxAt_nil : matchBboxAt [] = none := rfl

theorem bboxScanF_step (fuel : ℕ) (s remaining : List Char)
    (v : NumTok × NumTok × NumTok × NumTok) (h : matchBboxAt s = some (v, remaining)) :
    bboxScanF (fuel + 1) s = v :: bboxScanF fuel remaining := by
  cases s with
  | nil => rw [matchBboxAt_nil] at h; cases h
  | cons c r => simp [bboxScanF, h]

/-- The bbox scan consumes a `'['`-free prefix without finding a match. -/
theorem bboxScanF_lit (t rest : List Char) (fuel : ℕ) (ht : ∀ c ∈ t, c ≠ '[') :
    bboxScanF (t.length + fuel) (t ++ rest) = bboxScanF fuel rest := by
  induction t with
  | nil => simp
  | cons c t ih =>
    have hc := ht c (List.mem_cons_self c t)
    have hlen : (c :: t).length + fuel = (t.length + fuel) + 1 := by
      simp [List.length_cons]; omega
    rw [hlen, List.cons_append]
    rw [bboxScanF, matchBboxAt_cons_ne c _ hc]
    exact ih fun x hx => ht x (List.mem_cons_of_mem _ hx)

/-- A well-formed answer containing at least one box has at least one
bbox-pattern occurrence. -/
theorem bboxMatches_render_ne_nil (cs : List AnswerChunk)
    (hg : ∀ ch ∈ cs, goodChunk ch)
    (hbox : ∃ a b c d, AnswerChunk.box a b c d ∈ cs) :
    bboxMatches (renderAnswer cs) ≠ [] := by
  rw [bboxMatches]
  induction cs with
  | nil =>
    obtain ⟨a, b, c, d, hmem⟩ := hbox
    cases hmem
  | cons ch cs ih =>
    have hch := hg ch (List.mem_cons_self ch cs)
    have hgrest : ∀ x ∈ cs, goodChunk x := fun x hx => hg x (List.mem_cons_of_mem _ hx)
    rw [renderAnswer_cons]
    cases ch with
    | lit t =>
      simp only [renderChunk]
      rw [List.length_append, bboxScanF_lit t _ _ hch]
      refine ih hgrest ?_
      obtain ⟨a, b, c, d, hmem⟩ := hbox
      rcases List.mem_cons.1 hmem with heq | hmem2
      · cases heq
      · exact ⟨a, b, c, d, hmem2⟩
    | box d1 d2 d3 d4 =>
      have hm := matchBboxAt_box d1 d2 d3 d4 (renderAnswer cs) hch
      have hcons : renderChunk (.box d1 d2 d3 d4) ++ renderAnswer cs =
          '[' :: '[' :: ((d1 ++ ',' :: ' ' :: (d2 ++ ',' :: ' ' :: (d3 ++ ',' :: ' '
            :: (d4 ++ [']', ']'])))) ++ renderAnswer cs) := by
        simp [renderChunk]
      rw [hcons] at hm ⊢
      rw [show ('[' :: '[' :: ((d1 ++ ',' :: ' ' :: (d2 ++ ',' :: ' ' :: (d3 ++ ',' :: ' '
            :: (d4 ++ [']', ']'])))) ++ renderAnswer cs)).length =
          (((d1 ++ ',' :: ' ' :: (d2 ++ ',' :: ' ' :: (d3 ++ ',' :: ' '
            :: (d4 ++ [']', ']'])))) ++ renderAnswer cs).length + 1) + 1 from by
          simp [List.length_cons]]
      rw [bboxScanF_step _ _ _ _ hm]
      simp

/-- C10. Point pattern rejects bounding boxes: in any answer whose
double-bracketed groups are all four-number groups (filler free of
`'['`, groups `[[d1, d2, d3, d4]]` of nonempty digit strings), the
first-point extractor returns `none`; such an answer with at least one
group is resolved through the bbox-centre branch, never misread as a
point.  A concrete bbox-only answer illustrates both. -/
theorem C10_point_rejects_bbox :
    (∀ cs : List AnswerChunk, (∀ ch ∈ cs, goodChunk ch) →
      extract_first_point (renderAnswer cs) = none) ∧
    (∀ cs : List AnswerChunk, (∀ ch ∈ cs, goodChunk ch) →
      (∃ a b c d, AnswerChunk.box a b c d ∈ cs) →
      extract_last_bbox (renderAnswer cs) ≠ none) ∧
    extract_first_point "The element is at [[12, 34, 56, 78]]".data = none ∧
    parse_answer "The element is at [[12, 34, 56, 78]]".data = some (34, 56) := by
  refine ⟨?_, ?_, ?_, ?_⟩
  · intro cs hg
    rw [extract_first_point, pointSearch_renderAnswer cs hg]
    rfl
  · intro cs hg hbox
    rw [extract_last_bbox]
    have := bboxMatches_render_ne_nil cs hg hbox
    intro hcontra
    rcases hmm : (bboxMatches (renderAnswer cs)).getLast? with _ | v
    · exact this (List.getLast?_eq_none_iff.1 hmm)
    · rw [hmm] at hcontra
      cases hcontra
  · have h : pointSearch "The element is at [[12, 34, 56, 78]]".data = none := by decide
    rw [extract_first_point, h]
    rfl
  · have h1 : pointSearch "The element is at [[12, 34, 56, 78]]".data = none := by decide
    have h2 : (bboxMatches "The element is at [[12, 34, 56, 78]]".data).getLast? =
        some (⟨['1', '2'], none⟩, ⟨['3', '4'], none⟩, ⟨['5', '6'], none⟩,
          ⟨['7', '8'], none⟩) := by decide
    rw [parse_answer, extract_first_point, h1, extract_last_bbox, h2]
    norm_num [NumTok.toRat, digitsVal,
      show '1'.toNat - '0'.toNat = 1 from by decide,
      show '2'.toNat - '0'.toNat = 2 from by decide,
      show '3'.toNat - '0'.toNat = 3 from by decide,
      show '4'.toNat - '0'.toNat = 4 from by decide,
      show '5'.toNat - '0'.toNat = 5 from by decide,
      show '6'.toNat - '0'.toNat = 6 from by decide,
      show '7'.toNat - '0'.toNat = 7 from by decide,
      show '8'.toNat - '0'.toNat = 8 from by decide]

/-- Witness for C10 at a concrete chunk list. -/
theorem C10_point_rejects_bbox_witness :
    extract_first_point (renderAnswer [AnswerChunk.lit "ans: ".data,
      AnswerChunk.box ['1'] ['2'] ['3'] ['4']]) = none ∧
    extract_last_bbox (renderAnswer [AnswerChunk.lit "ans: ".data,
      AnswerChunk.box ['1'] ['2'] ['3'] ['4']]) ≠ none :=
  ⟨C10_point_rejects_bbox.1 _ (by decide),
   C10_point_rejects_bbox.2.1 _ (by decide) ⟨['1'], ['2'], ['3'], ['4'], by decide⟩⟩

/-! ## vision_internvl.py : InternVLModel._dynamic_preprocess

The tiling step.  `target_ratios` embeds
`sorted(set((i, j) for n in range(min_num, max_num+1) for i in range(1, n+1)
for j in range(1, n+1) if i*j <= max_num and i*j >= min_num), key=prod)`
(a stable sort of the deduplicated enumeration; the claims proved below
do not depend on the tie order of Python's set iteration).  The selection
loop and slicing are embedded one-to-one; PIL images enter only through
their sizes, and a crop box stands for the tile cropped from the resized
image. -/

/-- Python `range(a, b)`. -/
def pyRange (a b : ℕ) : List ℕ := (List.range (b - a)).map (· + a)

def targetRatiosRaw (minN maxN : ℕ) : List (ℕ × ℕ) :=
  (pyRange minN (maxN + 1)).flatMap fun n =>
    (pyRange 1 (n + 1)).flatMap fun i =>
      (pyRange 1 (n + 1)).filterMap fun j =>
        if minN ≤ i * j ∧ i * j ≤ maxN then some (i, j) else none

/-- Stable insertion by grid product (`key=lambda x: x[0]*x[1]`). -/
def insertByProd (x : ℕ × ℕ) : List (ℕ × ℕ) → List (ℕ × ℕ)
  | [] => [x]
  | y :: ys => if x.1 * x.2 < y.1 * y.2 then x :: y :: ys else y :: insertByProd x ys

def sortByProd (l : List (ℕ × ℕ)) : List (ℕ × ℕ) :=
  l.foldl (fun acc x => insertByProd x acc) []

/-- The candidate grid list of `_dynamic_preprocess`. -/
def target_ratios (minN maxN : ℕ) : List (ℕ × ℕ) :=
  sortByProd (targetRatiosRaw minN maxN).dedup

/-- Accumulator of the `find closest aspect ratio` loop:
`best_ratio` and `best_ratio_diff` (`none` = `float('inf')`). -/
structure GridAcc where
  best : ℕ × ℕ
  diff : Option ℚ
deriving DecidableEq

/-- One iteration of the selection loop (vision_internvl.py 126-134). -/
def gridStep (aspect : ℚ) (area imageSize : ℕ) (acc : GridAcc) (r : ℕ × ℕ) : GridAcc :=
  let target_ar : ℚ := (r.1 : ℚ) / (r.2 : ℚ)
  let d := |aspect - target_ar|
  match acc.diff with
  | none => ⟨r, some d⟩
  | some bd =>
    if d < bd then ⟨r, some d⟩
    else if d = bd then
      if (area : ℚ) > 1 / 2 * (imageSize : ℚ) * (imageSize : ℚ) * (r.1 : ℚ) * (r.2 : ℚ) then
        ⟨r, some bd⟩
      else acc
    else acc

def find_closest_aspect_ratio (aspect : ℚ) (ratios : List (ℕ × ℕ))
    (area imageSize : ℕ) : ℕ × ℕ :=
  (ratios.foldl (gridStep aspect area imageSize) ⟨(1, 1), none⟩).best

/-- A crop box `(left, top, right, bottom)` on the resized image. -/
structure CropBox where
  left : ℕ
  top : ℕ
  right : ℕ
  bottom : ℕ
deriving DecidableEq

/-- Result of `_dynamic_preprocess`: chosen grid, resize target, the grid
crop boxes, and whether a thumbnail tile is appended
(`use_thumbnail and len(processed_images) != 1`). -/
structure PreprocessOut where
  grid : ℕ × ℕ
  target_width : ℕ
  target_height : ℕ
  boxes : List CropBox
  thumbnail : Bool
deriving DecidableEq

/-- Embedding of `InternVLModel._dynamic_preprocess` on image sizes. -/
def dynamic_preprocess (width height : ℕ) (minN maxN imageSize : ℕ)
    (useThumbnail : Bool) : PreprocessOut :=
  let aspect : ℚ := (width : ℚ) / (height : ℚ)
  let best := find_closest_aspect_ratio aspect (target_ratios minN maxN)
    (width * height) imageSize
  let target_width := imageSize * best.1
  let target_height := imageSize * best.2
  let blocks := best.1 * best.2
  let boxes := (List.range blocks).map fun i =>
    ⟨(i % (target_width / imageSize)) * imageSize,
     (i / (target_width / imageSize)) * imageSize,
     ((i % (target_width / imageSize)) + 1) * imageSize,
     ((i / (target_width / imageSize)) + 1) * imageSize⟩
  { grid := best, target_width := target_width, target_height := target_height,
    boxes := boxes, thumbnail := useThumbnail && (blocks != 1) }

theorem mem_insertByProd (a x : ℕ × ℕ) (l : List (ℕ × ℕ)) :
    a ∈ insertByProd x l ↔ a = x ∨ a ∈ l := by
  induction l with
  | nil => simp [insertByProd]
  | cons y ys ih =>
    rw [insertByProd]
    split
    · simp
    · simp only [List.mem_cons, ih]
      tauto

theorem mem_sortByProd (a : ℕ × ℕ) (l : List (ℕ × ℕ)) : a ∈ sortByProd l ↔ a ∈ l := by
  have key : ∀ acc, a ∈ l.foldl (fun acc x => insertByProd x acc) acc ↔ a ∈ acc ∨ a ∈ l := by
    induction l with
    | nil => intro acc; simp
    | cons x xs ih =>
      intro acc
      rw [List.foldl_cons, ih]
      simp only [mem_insertByProd, List.mem_cons]
      tauto
  simpa [sortByProd] using key []

/-- Membership in the candidate list for the default bounds `[1, 12]`. -/
theorem mem_target_ratios (p : ℕ × ℕ) :
    p ∈ target_ratios 1 12 ↔ 1 ≤ p.1 ∧ 1 ≤ p.2 ∧ p.1 * p.2 ≤ 12 := by
  rw [target_ratios, mem_sortByProd, List.mem_dedup, targetRatiosRaw]
  simp only [List.mem_flatMap, List.mem_filterMap, pyRange, List.mem_map, List.mem_range]
  constructor
  · rintro ⟨n, ⟨n0, hn0, rfl⟩, i, ⟨i0, hi0, rfl⟩, j, ⟨j0, hj0, rfl⟩, hif⟩
    split at hif
    · next hcond =>
      cases hif
      exact ⟨by omega, by omega, hcond.2⟩
    · cases hif
  · rintro ⟨h1, h2, h12⟩
    have hp1 : p.1 ≤ 12 := by
      have hm : p.1 * 1 ≤ p.1 * p.2 := Nat.mul_le_mul (le_refl p.1) h2
      simpa using le_trans hm h12
    have hp2 : p.2 ≤ 12 := by
      have hm : 1 * p.2 ≤ p.1 * p.2 := Nat.mul_le_mul h1 (le_refl p.2)
      simpa using le_trans hm h12
    refine ⟨12, ⟨11, by omega, by omega⟩, p.1, ⟨p.1 - 1, by omega, by omega⟩,
      p.2, ⟨p.2 - 1, by omega, by omega⟩, ?_⟩
    rw [if_pos ⟨Nat.mul_pos h1 h2, h12⟩]

/-- The selection loop returns a candidate achieving the minimal aspect
deviation over the whole candidate list (ties aside, which the area rule
resolves without changing the attained minimum). -/
theorem gridFold_argmin (aspect : ℚ) (area s : ℕ) (l : List (ℕ × ℕ)) :
    (l = [] ∧ l.foldl (gridStep aspect area s) ⟨(1, 1), none⟩ = ⟨(1, 1), none⟩) ∨
    (∃ d : ℚ,
      (l.foldl (gridStep aspect area s) ⟨(1, 1), none⟩).diff = some d ∧
      (l.foldl (gridStep aspect area s) ⟨(1, 1), none⟩).best ∈ l ∧
      d = |aspect - ((l.foldl (gridStep aspect area s) ⟨(1, 1), none⟩).best.1 : ℚ) /
            ((l.foldl (gridStep aspect area s) ⟨(1, 1), none⟩).best.2 : ℚ)| ∧
      ∀ r ∈ l, d ≤ |aspect - (r.1 : ℚ) / (r.2 : ℚ)|) := by
  induction l using List.reverseRecOn with
  | nil => exact Or.inl ⟨rfl, rfl⟩
  | append_singleton l x ih =>
    right
    rw [List.foldl_append, List.foldl_cons, List.foldl_nil]
    rcases ih with ⟨rfl, hfold⟩ | ⟨d, hdiff, hmem, hdval, hmin⟩
    · rw [hfold]
      refine ⟨|aspect - (x.1 : ℚ) / (x.2 : ℚ)|, ?_, ?_, ?_, ?_⟩
      · rfl
      · simp [gridStep]
      · simp [gridStep]
      · intro r hr
        simp only [List.nil_append, List.mem_singleton] at hr
        subst hr
        exact le_refl _
    · set acc := l.foldl (gridStep aspect area s) ⟨(1, 1), none⟩ with hacc
      rw [gridStep, hdiff]
      simp only
      split_ifs with h1 h2 h3
      · refine ⟨|aspect - (x.1 : ℚ) / (x.2 : ℚ)|, rfl, by simp, by simp, ?_⟩
        intro r hr
        rcases List.mem_append.1 hr with hr | hr
        · exact le_trans (le_of_lt h1) (hmin r hr)
        · rw [List.mem_singleton] at hr
          subst hr
          exact le_refl _
      · refine ⟨d, rfl, by simp, by simpa using h2.symm, ?_⟩
        intro r hr
        rcases List.mem_append.1 hr with hr | hr
        · exact hmin r hr
        · rw [List.mem_singleton] at hr
          subst hr
          exact le_of_eq h2.symm
      · refine ⟨d, hdiff, List.mem_append_left _ hmem, hdval, ?_⟩
        intro r hr
        rcases List.mem_append.1 hr with hr | hr
        · exact hmin r hr
        · rw [List.mem_singleton] at hr
          subst hr
          exact le_of_eq h2.symm
      · refine ⟨d, hdiff, List.mem_append_left _ hmem, hdval, ?_⟩
        intro r hr
        rcases List.mem_append.1 hr with hr | hr
        · exact hmin r hr
        · rw [List.mem_singleton] at hr
          subst hr
          exact not_lt.1 h1

theorem dynamic_preprocess_grid (w h minN maxN s : ℕ) (ut : Bool) :
    (dynamic_preprocess w h minN maxN s ut).grid =
      find_closest_aspect_ratio ((w : ℚ) / (h : ℚ)) (target_ratios minN maxN) (w * h) s := rfl

theorem dynamic_preprocess_boxes (w h minN maxN s : ℕ) (ut : Bool) :
    (dynamic_preprocess w h minN maxN s ut).boxes =
      (List.range ((dynamic_preprocess w h minN maxN s ut).grid.1 *
          (dynamic_preprocess w h minN maxN s ut).grid.2)).map (fun i =>
        ⟨(i % (s * (dynamic_preprocess w h minN maxN s ut).grid.1 / s)) * s,
         (i / (s * (dynamic_preprocess w h minN maxN s ut).grid.1 / s)) * s,
         ((i % (s * (dynamic_preprocess w h minN maxN s ut).grid.1 / s)) + 1) * s,
         ((i / (s * (dynamic_preprocess w h minN maxN s ut).grid.1 / s)) + 1) * s⟩) := rfl

set_option maxHeartbeats 4000000 in
set_option maxRecDepth 4000 in
/-- C4. Tiling contract: for every image the chosen grid `(cols, rows)`
has `cols*rows ∈ [1, 12]` and minimizes `|aspect - cols/rows|` over all
candidate grids; the image is resized to `(cols*s, rows*s)` and sliced
into exactly `cols*rows` crop boxes of size `s × s` lying inside the
resized image, and a thumbnail tile is appended iff `use_thumbnail` and
more than one tile was produced.  Concretely a 1448×448 image with
`s = 448` selects grid `(3, 1)` (so `cols > rows`, 3 tiles plus a
thumbnail), the aspect-deviation tie between `(3, 1)` and `(6, 2)` being
kept at `(3, 1)` because the image area does not exceed half of
`448²·12`, while a 3250×1000 image, whose area does exceed that bound,
resolves the same tie to the larger grid `(6, 2)`. -/
theorem C4_tiling :
    (∀ (w h s : ℕ) (ut : Bool), 0 < w → 0 < h → 0 < s →
      (1 ≤ (dynamic_preprocess w h 1 12 s ut).grid.1 * (dynamic_preprocess w h 1 12 s ut).grid.2 ∧
        (dynamic_preprocess w h 1 12 s ut).grid.1 * (dynamic_preprocess w h 1 12 s ut).grid.2 ≤ 12) ∧
      (∀ i j : ℕ, 1 ≤ i → 1 ≤ j → i * j ≤ 12 →
        |(w : ℚ) / (h : ℚ) - ((dynamic_preprocess w h 1 12 s ut).grid.1 : ℚ) /
            ((dynamic_preprocess w h 1 12 s ut).grid.2 : ℚ)| ≤
          |(w : ℚ) / (h : ℚ) - (i : ℚ) / (j : ℚ)|) ∧
      (dynamic_preprocess w h 1 12 s ut).target_width =
        s * (dynamic_preprocess w h 1 12 s ut).grid.1 ∧
      (dynamic_preprocess w h 1 12 s ut).target_height =
        s * (dynamic_preprocess w h 1 12 s ut).grid.2 ∧
      (dynamic_preprocess w h 1 12 s ut).boxes.length =
        (dynamic_preprocess w h 1 12 s ut).grid.1 * (dynamic_preprocess w h 1 12 s ut).grid.2 ∧
      (∀ b ∈ (dynamic_preprocess w h 1 12 s ut).boxes,
        b.right - b.left = s ∧ b.bottom - b.top = s ∧
        b.right ≤ (dynamic_preprocess w h 1 12 s ut).target_width ∧
        b.bottom ≤ (dynamic_preprocess w h 1 12 s ut).target_height) ∧
      (dynamic_preprocess w h 1 12 s ut).thumbnail =
        (ut && ((dynamic_preprocess w h 1 12 s ut).grid.1 *
          (dynamic_preprocess w h 1 12 s ut).grid.2 != 1))) ∧
    (dynamic_preprocess 1448 448 1 12 448 true).grid = (3, 1) ∧
    (dynamic_preprocess 1448 448 1 12 448 true).boxes.length = 3 ∧
    (dynamic_preprocess 1448 448 1 12 448 true).thumbnail = true ∧
    (dynamic_preprocess 3250 1000 1 12 448 true).grid = (6, 2) := by
  have hlist : target_ratios 1 12 = [(1, 1), (1, 2), (2, 1), (1, 3), (3, 1), (1, 4),
    (2, 2), (4, 1), (1, 5), (5, 1), (1, 6), (2, 3), (3, 2), (6, 1), (1, 7), (7, 1),
    (1, 8), (2, 4), (4, 2), (8, 1), (1, 9), (3, 3), (9, 1), (1, 10), (2, 5), (5, 2),
    (10, 1), (1, 11), (11, 1), (1, 12), (2, 6), (3, 4), (4, 3), (6, 2), (12, 1)] := by
    decide
  have hgrid1448 : find_closest_aspect_ratio (((1448 : ℕ) : ℚ) / ((448 : ℕ) : ℚ))
      (target_ratios 1 12) (1448 * 448) 448 = (3, 1) := by
    rw [hlist, find_closest_aspect_ratio]
    norm_num [gridStep, List.foldl_cons, List.foldl_nil, abs]
  have hgrid3250 : find_closest_aspect_ratio (((3250 : ℕ) : ℚ) / ((1000 : ℕ) : ℚ))
      (target_ratios 1 12) (3250 * 1000) 448 = (6, 2) := by
    rw [hlist, find_closest_aspect_ratio]
    norm_num [gridStep, List.foldl_cons, List.foldl_nil, abs]
  refine ⟨?_, ?_, ?_, ?_, ?_⟩
  · intro w h s ut hw hh hs
    have hbest : (dynamic_preprocess w h 1 12 s ut).grid =
        ((target_ratios 1 12).foldl
          (gridStep ((w : ℚ) / (h : ℚ)) (w * h) s) ⟨(1, 1), none⟩).best := rfl
    have hne : (1, 1) ∈ target_ratios 1 12 :=
      (mem_target_ratios (1, 1)).2 ⟨le_refl 1, le_refl 1, by omega⟩
    rcases gridFold_argmin ((w : ℚ) / (h : ℚ)) (w * h) s (target_ratios 1 12) with
      ⟨hnil, -⟩ | ⟨d, hdiff, hmem, hdval, hmin⟩
    · rw [hnil] at hne
      cases hne
    · rw [← hbest] at hmem hdval
      have hchar := (mem_target_ratios _).1 hmem
      obtain ⟨hb1, hb2, hb12⟩ := hchar
      refine ⟨⟨Nat.mul_pos hb1 hb2, hb12⟩, ?_, rfl, rfl, by simp [dynamic_preprocess_boxes], ?_, ?_⟩
      · intro i j hi hj hij
        have hmem2 : (i, j) ∈ target_ratios 1 12 := (mem_target_ratios (i, j)).2 ⟨hi, hj, hij⟩
        have := hmin (i, j) hmem2
        rw [hdval] at this
        exact this
      · intro b hb
        rw [dynamic_preprocess_boxes] at hb
        obtain ⟨i, hi, rfl⟩ := List.mem_map.1 hb
        rw [List.mem_range] at hi
        have hcols : s * (dynamic_preprocess w h 1 12 s ut).grid.1 / s =
            (dynamic_preprocess w h 1 12 s ut).grid.1 := Nat.mul_div_cancel_left _ hs
        rw [hcols]
        set b1 := (dynamic_preprocess w h 1 12 s ut).grid.1 with hb1def
        set b2 := (dynamic_preprocess w h 1 12 s ut).grid.2 with hb2def
        have hmod : i % b1 < b1 := Nat.mod_lt _ (by omega)
        have hdivlt : i / b1 < b2 := Nat.div_lt_of_lt_mul (by rw [mul_comm] at hi ⊢; omega)
        refine ⟨?_, ?_, ?_, ?_⟩
        · simp [Nat.add_mul]
        · simp [Nat.add_mul]
        · show (i % b1 + 1) * s ≤ s * b1
          rw [mul_comm s b1]
          exact Nat.mul_le_mul_right s (by omega)
        · show (i / b1 + 1) * s ≤ s * b2
          rw [mul_comm s b2]
          exact Nat.mul_le_mul_right s (by omega)
      · rfl
  · rw [dynamic_preprocess_grid]
    exact hgrid1448
  · have hg : (dynamic_preprocess 1448 448 1 12 448 true).grid = (3, 1) := by
      rw [dynamic_preprocess_grid]
      exact hgrid1448
    rw [dynamic_preprocess_boxes, hg]
    rfl
  · have hg : (dynamic_preprocess 1448 448 1 12 448 true).grid = (3, 1) := by
      rw [dynamic_preprocess_grid]
      exact hgrid1448
    have hth : (dynamic_preprocess 1448 448 1 12 448 true).thumbnail =
        (true && ((dynamic_preprocess 1448 448 1 12 448 true).grid.1 *
          (dynamic_preprocess 1448 448 1 12 448 true).grid.2 != 1)) := rfl
    rw [hth, hg]
    rfl
  · rw [dynamic_preprocess_grid]
    exact hgrid3250

/-- Witness for C4 at a concrete image size. -/
theorem C4_tiling_witness :
    1 ≤ (dynamic_preprocess 1448 448 1 12 448 true).grid.1 *
        (dynamic_preprocess 1448 448 1 12 448 true).grid.2 ∧
    (dynamic_preprocess 1448 448 1 12 448 true).grid.1 *
        (dynamic_preprocess 1448 448 1 12 448 true).grid.2 ≤ 12 :=
  (C4_tiling.1 1448 448 448 true (by decide) (by decide) (by decide)).1

/-! ## server.py : resolve_ocr_text and difflib.SequenceMatcher

`SequenceMatcher(None, a, b).ratio()` on short strings (below difflib's
autojunk threshold, and with no junk predicate) is `2*M / (len a + len b)`
where `M` is the total size of the matching blocks: recursively, the
longest common substring — earliest in `a`, then earliest in `b`, on
ties — plus the matching blocks of the parts to its left and right. -/

def commonPrefixLen : List Char → List Char → ℕ
  | x :: xs, y :: ys => if x = y then commonPrefixLen xs ys + 1 else 0
  | _, _ => 0

def pairsUpto (m n : ℕ) : List (ℕ × ℕ) :=
  (List.range m).flatMap fun i => (List.range n).map fun j => (i, j)

def lmStep (a b : List Char) (acc : ℕ × ℕ × ℕ) (ij : ℕ × ℕ) : ℕ × ℕ × ℕ :=
  let k := commonPrefixLen (a.drop ij.1) (b.drop ij.2)
  if acc.2.2 < k then (ij.1, ij.2, k) else acc

/-- `find_longest_match` over the full ranges: the longest common
substring as `(i, j, size)`, ties to the earliest `i` then `j`. -/
def longestMatch (a b : List Char) : ℕ × ℕ × ℕ :=
  (pairsUpto a.length b.length).foldl (lmStep a b) (0, 0, 0)

/-- Total matched size over all matching blocks, fuelled (each recursive
call strictly shrinks `|a| + |b|`, so `|a| + |b|` fuel suffices). -/
def matchTotalF : ℕ → List Char → List Char → ℕ
  | 0, _, _ => 0
  | fuel + 1, a, b =>
    let m := longestMatch a b
    if m.2.2 = 0 then 0
    else
      matchTotalF fuel (a.take m.1) (b.take m.2.1) + m.2.2 +
        matchTotalF fuel (a.drop (m.1 + m.2.2)) (b.drop (m.2.1 + m.2.2))

def matchTotal (a b : List Char) : ℕ := matchTotalF (a.length + b.length) a b

/-- `SequenceMatcher(None, a, b).ratio()`: `2*M/T`, or `1.0` if `T = 0`. -/
def smRatio (a b : List Char) : ℚ :=
  if a.length + b.length = 0 then 1
  else 2 * (matchTotal a b : ℚ) / ((a.length : ℚ) + (b.length : ℚ))

theorem commonPrefixLen_le_left (a : List Char) : ∀ b, commonPrefixLen a b ≤ a.length := by
  induction a with
  | nil => intro b; cases b <;> simp [commonPrefixLen]
  | cons x xs ih =>
    intro b
    cases b with
    | nil => simp [commonPrefixLen]
    | cons y ys =>
      rw [commonPrefixLen]
      split
      · simpa using Nat.succ_le_succ (ih ys)
      · simp

theorem commonPrefixLen_le_right (a : List Char) : ∀ b, commonPrefixLen a b ≤ b.length := by
  induction a with
  | nil => intro b; cases b <;> simp [commonPrefixLen]
  | cons x xs ih =>
    intro b
    cases b with
    | nil => simp [commonPrefixLen]
    | cons y ys =>
      rw [commonPrefixLen]
      split
      · simpa using Nat.succ_le_succ (ih ys)
      · simp

theorem mem_pairsUpto (m n : ℕ) (p : ℕ × ℕ) :
    p ∈ pairsUpto m n ↔ p.1 < m ∧ p.2 < n := by
  cases p with
  | mk i j => simp [pairsUpto, List.mem_flatMap, List.mem_map, List.mem_range]

theorem foldl_inv {α β : Type _} (P : β → Prop) (f : β → α → β) (l : List α) :
    ∀ init : β, P init → (∀ acc x, x ∈ l → P acc → P (f acc x)) → P (l.foldl f init) := by
  induction l with
  | nil => intro init h _; exact h
  | cons x xs ih =>
    intro init h hstep
    rw [List.foldl_cons]
    exact ih (f init x) (hstep init x (List.mem_cons_self x xs) h)
      fun acc y hy => hstep acc y (List.mem_cons_of_mem _ hy)

theorem longestMatch_bounds (a b : List Char) :
    (longestMatch a b).1 + (longestMatch a b).2.2 ≤ a.length ∧
    (longestMatch a b).2.1 + (longestMatch a b).2.2 ≤ b.length := by
  refine foldl_inv (fun acc : ℕ × ℕ × ℕ =>
    acc.1 + acc.2.2 ≤ a.length ∧ acc.2.1 + acc.2.2 ≤ b.length) _ _ _ (by simp) ?_
  rintro acc ⟨i, j⟩ hmem ⟨h1, h2⟩
  rw [mem_pairsUpto] at hmem
  rw [lmStep]
  dsimp only
  split
  · next hlt =>
    have hkl := commonPrefixLen_le_left (a.drop i) (b.drop j)
    have hkr := commonPrefixLen_le_right (a.drop i) (b.drop j)
    rw [List.length_drop] at hkl hkr
    refine ⟨by dsimp only; omega, by dsimp only; omega⟩
  · exact ⟨h1, h2⟩

theorem matchTotalF_le (fuel : ℕ) :
    ∀ a b : List Char, matchTotalF fuel a b ≤ a.length ∧ matchTotalF fuel a b ≤ b.length := by
  induction fuel with
  | zero => intro a b; simp [matchTotalF]
  | succ fuel ih =>
    intro a b
    rw [matchTotalF]
    have hb := longestMatch_bounds a b
    split
    · simp
    · next hk =>
      have hleft := ih (a.take (longestMatch a b).1) (b.take (longestMatch a b).2.1)
      have hright := ih (a.drop ((longestMatch a b).1 + (longestMatch a b).2.2))
        (b.drop ((longestMatch a b).2.1 + (longestMatch a b).2.2))
      rw [List.length_take, List.length_take] at hleft
      rw [List.length_drop, List.length_drop] at hright
      constructor <;> omega

theorem matchTotal_le (a b : List Char) :
    matchTotal a b ≤ a.length ∧ matchTotal a b ≤ b.length :=
  matchTotalF_le _ a b

theorem smRatio_nonneg (a b : List Char) : 0 ≤ smRatio a b := by
  rw [smRatio]
  split
  · norm_num
  · positivity

theorem smRatio_le_one (a b : List Char) : smRatio a b ≤ 1 := by
  rw [smRatio]
  split
  · norm_num
  · next hne =>
    have h := matchTotal_le a b
    have hpos : (0 : ℚ) < (a.length : ℚ) + (b.length : ℚ) := by
      have hn : 0 < a.length + b.length := Nat.pos_of_ne_zero hne
      exact_mod_cast hn
    rw [div_le_one hpos]
    have hle : 2 * matchTotal a b ≤ a.length + b.length := by omega
    exact_mod_cast hle

/-- Python `.lower()` (ASCII model). -/
def pyLower (s : List Char) : List Char := s.map Char.toLower

/-- Python `.strip()` (whitespace at both ends). -/
def pyStrip (s : List Char) : List Char :=
  ((s.dropWhile isPySpace).reverse.dropWhile isPySpace).reverse

/-- `text.lower().strip()` as applied to targets and region texts. -/
def normText (s : List Char) : List Char := pyStrip (pyLower s)

/-- Pixel-space bounding box `{x, y, width, height}` of a TextRegion. -/
structure BBoxR where
  x : ℤ
  y : ℤ
  width : ℤ
  height : ℤ
deriving DecidableEq

/-- One OCR result entry `{id, text, confidence, bbox}`. -/
structure OcrRegion where
  id : List Char
  text : List Char
  confidence : ℚ
  bbox : BBoxR
deriving DecidableEq

/-- The two `ValueError` raises of `resolve_ocr_text`. -/
inductive OcrResolveError where
  | requiredText
  | noMatch (bestScore : ℚ)
deriving DecidableEq

/-- Similarity of a region against the normalized target. -/
def scoreAgainst (target : List Char) (item : OcrRegion) : ℚ :=
  smRatio target (normText item.text)

/-- One iteration of the `resolve_ocr_text` loop:
`if score > best_score: best_score, best = score, item`. -/
def bestStep (target : List Char) (acc : Option OcrRegion × ℚ) (item : OcrRegion) :
    Option OcrRegion × ℚ :=
  let score := scoreAgainst target item
  if acc.2 < score then (some item, score) else acc

/-- Embedding of `server.resolve_ocr_text` (lines 140-157): empty target
rejected up front; otherwise scan for the best-scoring region and either
return its bbox centre (`x + width // 2`, `y + height // 2`) when a
region was selected and the best score reaches the threshold, or raise a
no-match error carrying the best score. -/
def resolve_ocr_text (text : List Char) (ocr_results : List OcrRegion) (threshold : ℚ) :
    Except OcrResolveError (ℤ × ℤ) :=
  if text = [] then .error .requiredText
  else
    let target := normText text
    let best := ocr_results.foldl (bestStep target) (none, 0)
    match best.1 with
    | some item =>
      if best.2 ≥ threshold then
        .ok (item.bbox.x + item.bbox.width.fdiv 2, item.bbox.y + item.bbox.height.fdiv 2)
      else .error (.noMatch best.2)
    | none => .error (.noMatch best.2)

/-- The selection loop keeps a non-negative best score; returns `none`
exactly while no region scored strictly positive; and otherwise returns
the first-encountered maximum-score region. -/
theorem bestFold_spec (target : List Char) (l : List OcrRegion) :
    0 ≤ (l.foldl (bestStep target) (none, 0)).2 ∧
    ((l.foldl (bestStep target) (none, 0)).1 = none →
      (l.foldl (bestStep target) (none, 0)).2 = 0 ∧
      ∀ x ∈ l, scoreAgainst target x ≤ 0) ∧
    (∀ item, (l.foldl (bestStep target) (none, 0)).1 = some item →
      (l.foldl (bestStep target) (none, 0)).2 = scoreAgainst target item ∧
      0 < scoreAgainst target item ∧
      ∃ l1 l2, l = l1 ++ item :: l2 ∧
        (∀ x ∈ l1, scoreAgainst target x < scoreAgainst target item) ∧
        (∀ x ∈ l, scoreAgainst target x ≤ scoreAgainst target item)) := by
  induction l using List.reverseRecOn with
  | nil =>
    refine ⟨le_refl 0, fun _ => ⟨rfl, by simp⟩, fun item h => ?_⟩
    cases h
  | append_singleton l x ih =>
    obtain ⟨ihnn, ihnone, ihsome⟩ := ih
    rw [List.foldl_append, List.foldl_cons, List.foldl_nil] at *
    set acc := l.foldl (bestStep target) (none, 0) with hacc
    have hub : ∀ y ∈ l, scoreAgainst target y ≤ acc.2 := by
      intro y hy
      rcases h1 : acc.1 with - | prev
      · obtain ⟨hz, hall⟩ := ihnone h1
        rw [hz]
        exact hall y hy
      · obtain ⟨hval, -, -, -, -, -, hle⟩ := ihsome prev h1
        rw [hval]
        exact hle y hy
    rw [bestStep]
    split
    · next hlt =>
      refine ⟨le_of_lt (lt_of_le_of_lt ihnn hlt), fun h => Option.noConfusion h, ?_⟩
      intro item heq
      have hxi : x = item := by injection heq
      subst hxi
      refine ⟨rfl, lt_of_le_of_lt ihnn hlt, l, [], rfl, ?_, ?_⟩
      · intro y hy
        exact lt_of_le_of_lt (hub y hy) hlt
      · intro y hy
        rcases List.mem_append.1 hy with hy | hy
        · exact le_of_lt (lt_of_le_of_lt (hub y hy) hlt)
        · rw [List.mem_singleton] at hy
          subst hy
          exact le_refl _
    · next hge =>
      have hxle : scoreAgainst target x ≤ acc.2 := not_lt.1 hge
      refine ⟨ihnn, ?_, ?_⟩
      · intro hnone
        obtain ⟨hz, hall⟩ := ihnone hnone
        refine ⟨hz, fun y hy => ?_⟩
        rcases List.mem_append.1 hy with hy | hy
        · exact hall y hy
        · rw [List.mem_singleton] at hy
          subst hy
          rw [hz] at hxle
          exact hxle
      · intro item heq
        obtain ⟨hval, hpos, l1, l2, hdec, hstrict, hle⟩ := ihsome item heq
        refine ⟨hval, hpos, l1, l2 ++ [x], by rw [hdec, List.append_assoc]; rfl, hstrict, ?_⟩
        intro y hy
        rcases List.mem_append.1 hy with hy | hy
        · exact hle y hy
        · rw [List.mem_singleton] at hy
          subst hy
          rw [← hval]
          exact hxle

theorem bestFold_none (target : List Char) (l : List OcrRegion)
    (hall : ∀ x ∈ l, scoreAgainst target x ≤ 0) :
    l.foldl (bestStep target) (none, 0) = (none, 0) := by
  rcases h : (l.foldl (bestStep target) (none, 0)).1 with - | item
  · have h2 := ((bestFold_spec target l).2.1 h).1
    rw [Prod.ext_iff]
    exact ⟨h, h2⟩
  · obtain ⟨-, hpos, l1, l2, hdec, -, -⟩ := (bestFold_spec target l).2.2 item h
    have hmem : item ∈ l := by
      rw [hdec]
      exact List.mem_append_right l1 (List.mem_cons_self item l2)
    exact absurd (hall item hmem) (not_le.2 hpos)

theorem resolve_ocr_text_some (text : List Char) (l : List OcrRegion) (thr : ℚ)
    (item : OcrRegion) (ht : ¬(text = []))
    (hfold : (l.foldl (bestStep (normText text)) (none, 0)).1 = some item) :
    resolve_ocr_text text l thr =
      if (l.foldl (bestStep (normText text)) (none, 0)).2 ≥ thr then
        Except.ok (item.bbox.x + item.bbox.width.fdiv 2,
          item.bbox.y + item.bbox.height.fdiv 2)
      else Except.error (.noMatch (l.foldl (bestStep (normText text)) (none, 0)).2) := by
  simp only [resolve_ocr_text, if_neg ht, hfold]

theorem resolve_ocr_text_none (text : List Char) (l : List OcrRegion) (thr : ℚ)
    (ht : ¬(text = []))
    (hfold : (l.foldl (bestStep (normText text)) (none, 0)).1 = none) :
    resolve_ocr_text text l thr =
      Except.error (.noMatch (l.foldl (bestStep (normText text)) (none, 0)).2) := by
  simp only [resolve_ocr_text, if_neg ht, hfold]

set_option maxRecDepth 10000 in
/-- C2 (amended as forced by the counterexample below).  For every
non-empty target text and region list: every similarity score lies in
`[0, 1]`; if the region list is empty, or no region scores strictly
above zero, the resolver fails with no-match carrying best score `0`;
otherwise the first-encountered maximum-score region is selected, and
the resolver returns its bbox centre (`x + width // 2`,
`y + height // 2`) when the best score reaches the threshold and fails
with no-match carrying the best score when it does not.  The concrete
cases check the end-to-end `Submit` centre `(30, 25)` and that with two
regions above a `0.5` threshold the arg-max (not the first region above
the threshold) is selected. -/
theorem C2_fuzzy_resolver :
    (∀ (text : List Char) (l : List OcrRegion) (thr : ℚ), text ≠ [] →
      (∀ r ∈ l, 0 ≤ scoreAgainst (normText text) r ∧ scoreAgainst (normText text) r ≤ 1) ∧
      (l = [] → resolve_ocr_text text l thr = .error (.noMatch 0)) ∧
      ((∀ r ∈ l, scoreAgainst (normText text) r ≤ 0) →
        resolve_ocr_text text l thr = .error (.noMatch 0)) ∧
      ((∃ r ∈ l, 0 < scoreAgainst (normText text) r) →
        ∃ l1 best l2, l = l1 ++ best :: l2 ∧
          (∀ x ∈ l1, scoreAgainst (normText text) x < scoreAgainst (normText text) best) ∧
          (∀ x ∈ l, scoreAgainst (normText text) x ≤ scoreAgainst (normText text) best) ∧
          (thr ≤ scoreAgainst (normText text) best →
            resolve_ocr_text text l thr =
              .ok (best.bbox.x + best.bbox.width.fdiv 2,
                best.bbox.y + best.bbox.height.fdiv 2)) ∧
          (scoreAgainst (normText text) best < thr →
            resolve_ocr_text text l thr =
              .error (.noMatch (scoreAgainst (normText text) best))))) ∧
    resolve_ocr_text "Submit".data
      [⟨"0".data, "Submit".data, 9/10, ⟨10, 20, 40, 10⟩⟩] (8/10) = .ok (30, 25) ∧
    resolve_ocr_text "abcd".data
      [⟨"0".data, "abcc".data, 1, ⟨0, 0, 10, 10⟩⟩,
       ⟨"1".data, "abcd".data, 1, ⟨100, 100, 10, 10⟩⟩] (1/2) = .ok (105, 105) := by
  refine ⟨?_, ?_, ?_⟩
  · intro text l thr ht
    refine ⟨fun r _ => ⟨smRatio_nonneg _ _, smRatio_le_one _ _⟩, ?_, ?_, ?_⟩
    · rintro rfl
      rw [resolve_ocr_text_none text [] thr ht rfl]
      rfl
    · intro hall
      rw [resolve_ocr_text_none text l thr ht (by rw [bestFold_none _ _ hall]),
        bestFold_none _ _ hall]
    · rintro ⟨r0, hr0, hr0pos⟩
      rcases hfold : (l.foldl (bestStep (normText text)) (none, 0)).1 with - | item
      · have hall := ((bestFold_spec (normText text) l).2.1 hfold).2
        exact absurd (hall r0 hr0) (not_le.2 hr0pos)
      · obtain ⟨hval, hpos, l1, l2, hdec, hstrict, hle⟩ :=
          (bestFold_spec (normText text) l).2.2 item hfold
        refine ⟨l1, item, l2, hdec, hstrict, hle, ?_, ?_⟩
        · intro hth
          rw [resolve_ocr_text_some text l thr item ht hfold, hval, if_pos hth]
        · intro hlt
          rw [resolve_ocr_text_some text l thr item ht hfold, hval,
            if_neg (not_le.2 hlt)]
  · have hn : normText "Submit".data = "submit".data := by decide
    have hsc : scoreAgainst (normText "Submit".data)
        ⟨"0".data, "Submit".data, 9/10, ⟨10, 20, 40, 10⟩⟩ = 1 := by
      rw [scoreAgainst]
      show smRatio (normText "Submit".data) (normText "Submit".data) = 1
      rw [hn, smRatio, show matchTotal "submit".data "submit".data = 6 from by decide,
        show ("submit".data).length = 6 from by decide]
      norm_num
    have hstep : bestStep (normText "Submit".data) (none, 0)
        ⟨"0".data, "Submit".data, 9/10, ⟨10, 20, 40, 10⟩⟩ =
        (some ⟨"0".data, "Submit".data, 9/10, ⟨10, 20, 40, 10⟩⟩, 1) := by
      rw [bestStep, hsc]
      norm_num
    have hfold : ([(⟨"0".data, "Submit".data, 9/10, ⟨10, 20, 40, 10⟩⟩ : OcrRegion)].foldl
        (bestStep (normText "Submit".data)) (none, 0)) =
        (some ⟨"0".data, "Submit".data, 9/10, ⟨10, 20, 40, 10⟩⟩, 1) := by
      rw [List.foldl_cons, List.foldl_nil, hstep]
    rw [resolve_ocr_text_some _ _ _ _ (by decide) (by rw [hfold]), hfold]
    rw [if_pos (by norm_num)]
    show Except.ok ((10 : ℤ) + Int.fdiv 40 2, (20 : ℤ) + Int.fdiv 10 2) = _
    rw [show (10 : ℤ) + Int.fdiv 40 2 = 30 from by decide,
      show (20 : ℤ) + Int.fdiv 10 2 = 25 from by decide]
  · have hn : normText "abcd".data = "abcd".data := by decide
    have hsc1 : scoreAgainst (normText "abcd".data)
        ⟨"0".data, "abcc".data, 1, ⟨0, 0, 10, 10⟩⟩ = 3/4 := by
      rw [scoreAgainst]
      show smRatio (normText "abcd".data) (normText "abcc".data) = 3/4
      rw [hn, show normText "abcc".data = "abcc".data from by decide, smRatio,
        show matchTotal "abcd".data "abcc".data = 3 from by decide,
        show ("abcd".data).length = 4 from by decide,
        show ("abcc".data).length = 4 from by decide]
      norm_num
    have hsc2 : scoreAgainst (normText "abcd".data)
        ⟨"1".data, "abcd".data, 1, ⟨100, 100, 10, 10⟩⟩ = 1 := by
      rw [scoreAgainst]
      show smRatio (normText "abcd".data) (normText "abcd".data) = 1
      rw [hn, smRatio, show matchTotal "abcd".data "abcd".data = 4 from by decide,
        show ("abcd".data).length = 4 from by decide]
      norm_num
    have hstep1 : bestStep (normText "abcd".data) (none, 0)
        ⟨"0".data, "abcc".data, 1, ⟨0, 0, 10, 10⟩⟩ =
        (some ⟨"0".data, "abcc".data, 1, ⟨0, 0, 10, 10⟩⟩, 3/4) := by
      rw [bestStep, hsc1]
      norm_num
    have hstep2 : bestStep (normText "abcd".data)
        (some ⟨"0".data, "abcc".data, 1, ⟨0, 0, 10, 10⟩⟩, 3/4)
        ⟨"1".data, "abcd".data, 1, ⟨100, 100, 10, 10⟩⟩ =
        (some ⟨"1".data, "abcd".data, 1, ⟨100, 100, 10, 10⟩⟩, 1) := by
      rw [bestStep, hsc2]
      norm_num
    have hfold : ([(⟨"0".data, "abcc".data, 1, ⟨0, 0, 10, 10⟩⟩ : OcrRegion),
        ⟨"1".data, "abcd".data, 1, ⟨100, 100, 10, 10⟩⟩].foldl
          (bestStep (normText "abcd".data)) (none, 0)) =
        (some ⟨"1".data, "abcd".data, 1, ⟨100, 100, 10, 10⟩⟩, 1) := by
      rw [List.foldl_cons, List.foldl_cons, List.foldl_nil, hstep1, hstep2]
    rw [resolve_ocr_text_some _ _ _ _ (by decide) (by rw [hfold]), hfold]
    rw [if_pos (by norm_num)]
    show Except.ok ((100 : ℤ) + Int.fdiv 10 2, (100 : ℤ) + Int.fdiv 10 2) = _
    rw [show (100 : ℤ) + Int.fdiv 10 2 = 105 from by decide]

/-- Witness for C2 at a concrete input. -/
theorem C2_fuzzy_resolver_witness :
    resolve_ocr_text "x".data [] (8/10) = .error (.noMatch 0) :=
  (C2_fuzzy_resolver.1 "x".data [] (8/10) (by decide)).2.1 rfl

set_option maxRecDepth 10000 in
/-- Counterexample to C2 as stated: with threshold `0`, one region of
similarity `0` and a non-empty target, the best ratio (`0`) is not below
the threshold and the region list is non-empty, so the claim requires
the region's bbox centre `(11, 21)`; the code instead raises no-match,
because a score of `0` never strictly exceeds the initial best score and
`best` stays `None`. -/
theorem C2_fuzzy_resolver_counterexample :
    scoreAgainst (normText "a".data) ⟨"0".data, "b".data, 1, ⟨10, 20, 2, 2⟩⟩ = 0 ∧
    resolve_ocr_text "a".data [⟨"0".data, "b".data, 1, ⟨10, 20, 2, 2⟩⟩] 0 =
      .error (.noMatch 0) ∧
    resolve_ocr_text "a".data [⟨"0".data, "b".data, 1, ⟨10, 20, 2, 2⟩⟩] 0 ≠
      .ok (11, 21) := by
  have hsc : scoreAgainst (normText "a".data) ⟨"0".data, "b".data, 1, ⟨10, 20, 2, 2⟩⟩ = 0 := by
    rw [scoreAgainst]
    show smRatio (normText "a".data) (normText "b".data) = 0
    rw [show normText "a".data = "a".data from by decide,
      show normText "b".data = "b".data from by decide, smRatio,
      show matchTotal "a".data "b".data = 0 from by decide,
      show ("a".data).length = 1 from by decide,
      show ("b".data).length = 1 from by decide]
    norm_num
  have hstep : bestStep (normText "a".data) (none, 0)
      ⟨"0".data, "b".data, 1, ⟨10, 20, 2, 2⟩⟩ = (none, 0) := by
    rw [bestStep, hsc]
    norm_num
  have hfold : ([(⟨"0".data, "b".data, 1, ⟨10, 20, 2, 2⟩⟩ : OcrRegion)].foldl
      (bestStep (normText "a".data)) (none, 0)) = (none, 0) := by
    rw [List.foldl_cons, List.foldl_nil, hstep]
  have hres : resolve_ocr_text "a".data [⟨"0".data, "b".data, 1, ⟨10, 20, 2, 2⟩⟩] 0 =
      .error (.noMatch 0) := by
    rw [resolve_ocr_text_none _ _ _ (by decide) (by rw [hfold]), hfold]
  refine ⟨hsc, hres, ?_⟩
  rw [hres]
  intro hcontra
  cases hcontra

/-! ## hashlib.sha256 and the screenshot fingerprint

`ingest_screenshot` derives a missing id as
`hashlib.sha256(sample.encode("utf-8")).hexdigest()[:16]` where `sample`
is the first 1024 characters of the base64 string.  SHA-256 is embedded
in full (FIPS 180-4); its round constants are the fractional parts of
the cube / square roots of the first primes, obtained here by integer
root extraction rather than transcribed tables. -/

def w32 (x : ℕ) : ℕ := x % 4294967296

def rotr (n x : ℕ) : ℕ := w32 ((x >>> n) ||| (x <<< (32 - n)))

def shr (n x : ℕ) : ℕ := x >>> n

def bigSigma0 (x : ℕ) : ℕ := (rotr 2 x) ^^^ (rotr 13 x) ^^^ (rotr 22 x)
def bigSigma1 (x : ℕ) : ℕ := (rotr 6 x) ^^^ (rotr 11 x) ^^^ (rotr 25 x)
def smallSigma0 (x : ℕ) : ℕ := (rotr 7 x) ^^^ (rotr 18 x) ^^^ (shr 3 x)
def smallSigma1 (x : ℕ) : ℕ := (rotr 17 x) ^^^ (rotr 19 x) ^^^ (shr 10 x)
def chFn (x y z : ℕ) : ℕ := (x &&& y) ^^^ ((x ^^^ 4294967295) &&& z)
def majFn (x y z : ℕ) : ℕ := (x &&& y) ^^^ (x &&& z) ^^^ (y &&& z)

/-- Fuelled binary search for the integer cube root. -/
def cbrtGo (n : ℕ) : ℕ → ℕ → ℕ → ℕ
  | lo, _, 0 => lo
  | lo, hi, fuel + 1 =>
    if hi ≤ lo + 1 then lo
    else
      let mid := (lo + hi) / 2
      if mid ^ 3 ≤ n then cbrtGo n mid hi fuel else cbrtGo n lo mid fuel

def natCbrt (n : ℕ) : ℕ := cbrtGo n 0 (n + 1) 200

/-- The first 64 primes. -/
def primes64 : List ℕ :=
  [2, 3, 5, 7, 11, 13, 17, 19, 23, 29, 31, 37, 41, 43, 47, 53,
   59, 61, 67, 71, 73, 79, 83, 89, 97, 101, 103, 107, 109, 113, 127, 131,
   137, 139, 149, 151, 157, 163, 167, 173, 179, 181, 191, 193, 197, 199, 211, 223,
   227, 229, 233, 239, 241, 251, 257, 263, 269, 271, 277, 281, 283, 293, 307, 311]

/-- Round constants: fractional cube roots of the first 64 primes. -/
def K64 : List ℕ := primes64.map fun p => natCbrt (p * 2 ^ 96) % 4294967296

/-- The eight working registers of SHA-256. -/
structure Hash8 where
  r0 : ℕ
  r1 : ℕ
  r2 : ℕ
  r3 : ℕ
  r4 : ℕ
  r5 : ℕ
  r6 : ℕ
  r7 : ℕ
deriving DecidableEq

/-- Initial hash: fractional square roots of the first 8 primes. -/
def sha256Init : Hash8 :=
  ⟨Nat.sqrt (2 * 2 ^ 64) % 4294967296, Nat.sqrt (3 * 2 ^ 64) % 4294967296,
   Nat.sqrt (5 * 2 ^ 64) % 4294967296, Nat.sqrt (7 * 2 ^ 64) % 4294967296,
   Nat.sqrt (11 * 2 ^ 64) % 4294967296, Nat.sqrt (13 * 2 ^ 64) % 4294967296,
   Nat.sqrt (17 * 2 ^ 64) % 4294967296, Nat.sqrt (19 * 2 ^ 64) % 4294967296⟩

/-- Extend the 16 message words by one scheduled word. -/
def scheduleStep (w : List ℕ) : List ℕ :=
  let n := w.length
  w ++ [w32 (smallSigma1 (w.getD (n - 2) 0) + w.getD (n - 7) 0 +
    smallSigma0 (w.getD (n - 15) 0) + w.getD (n - 16) 0)]

/-- The 64-entry message schedule. -/
def schedule (w16 : List ℕ) : List ℕ :=
  (List.range 48).foldl (fun w _ => scheduleStep w) w16

/-- One compression round. -/
def compressStep (st : Hash8) (kw : ℕ × ℕ) : Hash8 :=
  let t1 := w32 (st.r7 + bigSigma1 st.r4 + chFn st.r4 st.r5 st.r6 + kw.1 + kw.2)
  let t2 := w32 (bigSigma0 st.r0 + majFn st.r0 st.r1 st.r2)
  ⟨w32 (t1 + t2), st.r0, st.r1, st.r2, w32 (st.r3 + t1), st.r4, st.r5, st.r6⟩

/-- Compress one 16-word block into the running hash. -/
def sha256Block (hv : Hash8) (block : List ℕ) : Hash8 :=
  let st := (K64.zip (schedule block)).foldl compressStep hv
  ⟨w32 (hv.r0 + st.r0), w32 (hv.r1 + st.r1), w32 (hv.r2 + st.r2), w32 (hv.r3 + st.r3),
   w32 (hv.r4 + st.r4), w32 (hv.r5 + st.r5), w32 (hv.r6 + st.r6), w32 (hv.r7 + st.r7)⟩

/-- Big-endian 8-byte encoding. -/
def be8 (n : ℕ) : List ℕ := (List.range 8).map fun i => (n >>> (8 * (7 - i))) % 256

/-- FIPS padding: `0x80`, zeros to 56 mod 64, 8-byte bit length. -/
def sha256pad (m : List ℕ) : List ℕ :=
  m ++ 128 :: List.replicate ((119 - m.length % 64) % 64) 0 ++ be8 (8 * m.length)

/-- Group bytes into big-endian 32-bit words. -/
def toWords : List ℕ → List ℕ
  | b0 :: b1 :: b2 :: b3 :: rest => (((b0 * 256 + b1) * 256 + b2) * 256 + b3) :: toWords rest
  | _ => []

/-- Split a word list into 16-word blocks (fuelled). -/
def chunks16F : ℕ → List ℕ → List (List ℕ)
  | 0, _ => []
  | _ + 1, [] => []
  | fuel + 1, ws => ws.take 16 :: chunks16F fuel (ws.drop 16)

/-- SHA-256 of a byte list, as the final eight registers. -/
def sha256Words (msg : List ℕ) : Hash8 :=
  let padded := sha256pad msg
  (chunks16F padded.length (toWords padded)).foldl sha256Block sha256Init

def toHexNibble (n : ℕ) : Char :=
  if n < 10 then Char.ofNat (48 + n) else Char.ofNat (87 + n)

def wordToHex (w : ℕ) : List Char :=
  (List.range 8).map fun i => toHexNibble ((w >>> (4 * (7 - i))) % 16)

/-- `hexdigest()`. -/
def sha256hex (msg : List ℕ) : List Char :=
  wordToHex (sha256Words msg).r0 ++ wordToHex (sha256Words msg).r1 ++
  wordToHex (sha256Words msg).r2 ++ wordToHex (sha256Words msg).r3 ++
  wordToHex (sha256Words msg).r4 ++ wordToHex (sha256Words msg).r5 ++
  wordToHex (sha256Words msg).r6 ++ wordToHex (sha256Words msg).r7

/-- `str.encode("utf-8")`. -/
def utf8Char (c : Char) : List ℕ :=
  let n := c.toNat
  if n < 128 then [n]
  else if n < 2048 then [192 ||| (n >>> 6), 128 ||| (n &&& 63)]
  else if n < 65536 then
    [224 ||| (n >>> 12), 128 ||| ((n >>> 6) &&& 63), 128 ||| (n &&& 63)]
  else
    [240 ||| (n >>> 18), 128 ||| ((n >>> 12) &&& 63),
     128 ||| ((n >>> 6) &&& 63), 128 ||| (n &&& 63)]

def utf8Bytes (s : List Char) : List ℕ := s.flatMap utf8Char

/-- The content fingerprint of `ingest_screenshot` (server.py 201-203):
`sha256` of (the UTF-8 bytes of) the first 1024 characters of the base64
payload, truncated to 16 hex characters. -/
def screenshotFingerprint (b64 : List Char) : List Char :=
  (sha256hex (utf8Bytes (b64.take 1024))).take 16

theorem wordToHex_length (w : ℕ) : (wordToHex w).length = 8 := by
  simp [wordToHex]

theorem sha256hex_length (m : List ℕ) : (sha256hex m).length = 64 := by
  simp [sha256hex, wordToHex_length]

/-- The fingerprint depends only on the first 1024 characters. -/
theorem screenshotFingerprint_take (s t : List Char)
    (h : s.take 1024 = t.take 1024) :
    screenshotFingerprint s = screenshotFingerprint t := by
  rw [screenshotFingerprint, h, screenshotFingerprint]

/-- The fingerprint is 16 characters long. -/
theorem screenshotFingerprint_length (s : List Char) :
    (screenshotFingerprint s).length = 16 := by
  rw [screenshotFingerprint, List.length_take, sha256hex_length]
  rfl

/-! ## server.py : GroundingService — session store, ingest, background
OCR tasks, resolve

The cooperatively-scheduled service is embedded as a state machine.  A
`run_ocr` task spawned by `ingest_screenshot` is a `PendingOcr` record
holding its captured `current_id` and screenshot; its completion is the
`complete_ocr` transition (`ok` models whether `analyze` succeeded, and
the detector itself is a parameter `det`, pure in the image bytes).
`asyncio.wait_for(...wait...)` calls only suspend and never mutate
state, so они are not transitions.  `signalLog` records each
`ocr_event.set()` of a `finally` block, tagged with the task and its
session key. -/

structure SessionCacheM where
  screenshot_id : Option String
  screenshot_b64 : Option String
  ocr_results : Option (List OcrRegion)
  ocr_event : Bool
deriving DecidableEq

def SessionCacheM.empty : SessionCacheM := ⟨none, none, none, false⟩

structure PendingOcr where
  tid : ℕ
  key : String
  current_id : String
  screenshot : String
deriving DecidableEq

structure ServiceState where
  sessions : List (String × SessionCacheM)
  pending : List PendingOcr
  nextTid : ℕ
  signalLog : List (ℕ × String)
  visionLoaded : Bool
deriving DecidableEq

def initState : ServiceState := ⟨[], [], 0, [], false⟩

def slookup (key : String) : List (String × SessionCacheM) → Option SessionCacheM
  | [] => none
  | (k, c) :: rest => if k = key then some c else slookup key rest

def supdate (key : String) (f : SessionCacheM → SessionCacheM) :
    List (String × SessionCacheM) → List (String × SessionCacheM)
  | [] => []
  | (k, c) :: rest => if k = key then (k, f c) :: rest else (k, c) :: supdate key f rest

/-- `_get_session`: create an empty entry on first touch. -/
def ensureSession (key : String) (sessions : List (String × SessionCacheM)) :
    List (String × SessionCacheM) :=
  if (slookup key sessions).isSome then sessions
  else sessions ++ [(key, SessionCacheM.empty)]

/-- Python truthiness of an optional string. -/
def optTruthy : Option String → Bool
  | none => false
  | some s => !(s = "")

/-- The id `ingest_screenshot` stores and returns:
`if not screenshot_id: screenshot_id = sha256(sample).hexdigest()[:16]`
(an empty external id is falsy and is replaced by the fingerprint). -/
def chosenId (b64 : String) (ext : Option String) : String :=
  match ext with
  | some i => if i = "" then String.mk (screenshotFingerprint b64.data) else i
  | none => String.mk (screenshotFingerprint b64.data)

/-- Embedding of `GroundingService.ingest_screenshot` (state effect plus
returned id): replace the session entry wholesale, clear results and
readiness, and spawn one detection task capturing the new id and image. -/
def ingest_screenshot (key b64 : String) (ext : Option String) (st : ServiceState) :
    ServiceState × String :=
  let sid := chosenId b64 ext
  let sessions := supdate key (fun _ => ⟨some sid, some b64, none, false⟩)
    (ensureSession key st.sessions)
  ({ st with
      sessions := sessions
      pending := st.pending ++ [⟨st.nextTid, key, sid, b64⟩]
      nextTid := st.nextTid + 1 }, sid)

/-- Embedding of a `run_ocr` task completing (server.py 209-218): if OCR
is available and `analyze` succeeded, publish the result only when the
captured id still equals the entry's current id; in every case set the
entry's readiness event (the `finally`) and retire the task. -/
def complete_ocr (ocrAvailable : Bool) (det : String → List OcrRegion) (ok : Bool)
    (tid : ℕ) (st : ServiceState) : ServiceState :=
  match st.pending.find? (fun u => u.tid == tid) with
  | none => st
  | some t =>
    let sessions :=
      if ocrAvailable && ok then
        supdate t.key (fun c =>
          if c.screenshot_id = some t.current_id then
            { c with ocr_results := some (det t.screenshot) }
          else c) st.sessions
      else st.sessions
    { st with
        sessions := supdate t.key (fun c => { c with ocr_event := true }) sessions
        pending := st.pending.filter (fun u => u.tid != tid)
        signalLog := st.signalLog ++ [(t.tid, t.key)] }

inductive ResolveErr where
  | noScreenshot
  | engineUnavailable
  | ocrErr (e : OcrResolveError)
  | missingDescription
  | visionNoTarget
  | unknownMethod
deriving DecidableEq

def ocrOutcome (sid : String) (r : Except OcrResolveError (ℤ × ℤ)) :
    Except ResolveErr (String × ℤ × ℤ) :=
  match r with
  | .ok (x, y) => .ok (sid, x, y)
  | .error e => .error (.ocrErr e)

/-- Embedding of `GroundingService.resolve` (server.py 228-264).  The
screenshot-id hint only logs a warning, waits only suspend; the `ocr`
path runs on-demand detection (writing `ocr_results`) when none are
cached, then delegates to `resolve_ocr_text` with threshold default
`0.8`; the `prediction` path requires a truthy description, memoizes the
vision model (`visionLoaded`) and delegates to the model
(`visionPredict`, a parameter standing for the loaded point-grounding
model). -/
def resolveM (ocrAvailable : Bool) (det : String → List OcrRegion)
    (visionPredict : String → String → Option (ℤ × ℤ))
    (key method : String) (ocr_text description : Option String)
    (threshold : Option ℚ) (st : ServiceState) :
    ServiceState × Except ResolveErr (String × ℤ × ℤ) :=
  let sessions1 := ensureSession key st.sessions
  let st1 : ServiceState := { st with sessions := sessions1 }
  let c := (slookup key sessions1).getD SessionCacheM.empty
  if optTruthy c.screenshot_b64 && optTruthy c.screenshot_id then
    let sid := c.screenshot_id.getD ""
    let b64 := c.screenshot_b64.getD ""
    if method = "ocr" then
      match c.ocr_results with
      | some regions =>
        (st1, ocrOutcome sid (resolve_ocr_text (ocr_text.getD "").data regions
          (threshold.getD (8/10))))
      | none =>
        if ocrAvailable then
          let regions := det b64
          let st2 : ServiceState := { st1 with
            sessions := supdate key (fun c => { c with ocr_results := some regions })
              sessions1 }
          (st2, ocrOutcome sid (resolve_ocr_text (ocr_text.getD "").data regions
            (threshold.getD (8/10))))
        else (st1, .error .engineUnavailable)
    else if method = "prediction" then
      if optTruthy description then
        let st2 : ServiceState := { st1 with visionLoaded := true }
        match visionPredict b64 (description.getD "") with
        | some (x, y) => (st2, .ok (sid, x, y))
        | none => (st2, .error .visionNoTarget)
      else (st1, .error .missingDescription)
    else (st1, .error .unknownMethod)
  else (st1, .error .noScreenshot)

theorem slookup_supdate_self (key : String) (f : SessionCacheM → SessionCacheM) :
    ∀ l, slookup key (supdate key f l) = (slookup key l).map f := by
  intro l
  induction l with
  | nil => rfl
  | cons e rest ih =>
    cases e with
    | mk k c =>
      by_cases hk : k = key
      · simp [supdate, slookup, hk]
      · simp [supdate, slookup, hk, ih]

theorem slookup_supdate_ne (k key : String) (f : SessionCacheM → SessionCacheM)
    (h : k ≠ key) : ∀ l, slookup k (supdate key f l) = slookup k l := by
  intro l
  induction l with
  | nil => rfl
  | cons e rest ih =>
    cases e with
    | mk k2 c =>
      by_cases hk2 : k2 = key
      · subst hk2
        rw [supdate, if_pos rfl, slookup, if_neg (Ne.symm h), slookup, if_neg (Ne.symm h)]
      · rw [supdate, if_neg hk2, slookup, slookup]
        by_cases hk3 : k2 = k
        · rw [if_pos hk3, if_pos hk3]
        · rw [if_neg hk3, if_neg hk3, ih]

theorem slookup_append_none (key : String) (l2 : List (String × SessionCacheM)) :
    ∀ l, slookup key l = none → slookup key (l ++ l2) = slookup key l2 := by
  intro l
  induction l with
  | nil => intro _; rfl
  | cons e rest ih =>
    cases e with
    | mk k c =>
      intro h
      by_cases hk : k = key
      · rw [slookup, if_pos hk] at h
        cases h
      · rw [slookup, if_neg hk] at h
        rw [List.cons_append, slookup, if_neg hk]
        exact ih h

theorem ensure_of_isSome (key : String) (l : List (String × SessionCacheM))
    (h : (slookup key l).isSome) : ensureSession key l = l := by
  rw [ensureSession, if_pos h]

theorem slookup_ensure_self (key : String) (l : List (String × SessionCacheM)) :
    slookup key (ensureSession key l) =
      some ((slookup key l).getD SessionCacheM.empty) := by
  rcases h : slookup key l with - | c
  · rw [ensureSession, h]
    simp only [Option.isSome_none, Bool.false_eq_true, if_false]
    rw [slookup_append_none key _ l h]
    simp [slookup]
  · rw [ensure_of_isSome key l (by rw [h]; rfl), h]
    rfl

theorem slookup_append_other (k key : String) (c : SessionCacheM) (h : k ≠ key) :
    ∀ l, slookup k (l ++ [(key, c)]) = slookup k l := by
  intro l
  induction l with
  | nil =>
    rw [List.nil_append]
    simp [slookup, Ne.symm h]
  | cons e rest ih =>
    cases e with
    | mk k2 c2 =>
      rw [List.cons_append, slookup, slookup]
      by_cases hk : k2 = k
      · rw [if_pos hk, if_pos hk]
      · rw [if_neg hk, if_neg hk, ih]

theorem slookup_ensure_ne (k key : String) (l : List (String × SessionCacheM))
    (h : k ≠ key) : slookup k (ensureSession key l) = slookup k l := by
  rw [ensureSession]
  split
  · rfl
  · exact slookup_append_other k key _ h l

theorem ingest_entry (key b64 : String) (ext : Option String) (st : ServiceState) :
    slookup key ((ingest_screenshot key b64 ext st).1).sessions =
      some ⟨some (chosenId b64 ext), some b64, none, false⟩ := by
  show slookup key (supdate key _ (ensureSession key st.sessions)) = _
  rw [slookup_supdate_self, slookup_ensure_self]
  rfl

theorem ingest_entry_ne (k key b64 : String) (ext : Option String) (st : ServiceState)
    (h : k ≠ key) :
    slookup k ((ingest_screenshot key b64 ext st).1).sessions =
      slookup k st.sessions := by
  show slookup k (supdate key _ (ensureSession key st.sessions)) = _
  rw [slookup_supdate_ne _ _ _ h, slookup_ensure_ne _ _ _ h]

theorem ingest_pending (key b64 : String) (ext : Option String) (st : ServiceState) :
    ((ingest_screenshot key b64 ext st).1).pending =
      st.pending ++ [⟨st.nextTid, key, chosenId b64 ext, b64⟩] := rfl

theorem chosenId_ne_empty (b64 : String) (ext : Option String) :
    chosenId b64 ext ≠ "" := by
  have hfp : String.mk (screenshotFingerprint b64.data) ≠ "" := by
    intro h
    have hlen := screenshotFingerprint_length b64.data
    rw [show (screenshotFingerprint b64.data) = (String.mk
      (screenshotFingerprint b64.data)).data from rfl, h] at hlen
    cases hlen
  rcases ext with - | i
  · exact hfp
  · rw [chosenId]
    split
    · exact hfp
    · next hne => exact hne

theorem complete_ocr_not_found (oa : Bool) (det : String → List OcrRegion) (ok : Bool)
    (tid : ℕ) (st : ServiceState)
    (h : st.pending.find? (fun u => u.tid == tid) = none) :
    complete_ocr oa det ok tid st = st := by
  rw [complete_ocr, h]

theorem complete_ocr_log (oa : Bool) (det : String → List OcrRegion) (ok : Bool)
    (tid : ℕ) (st : ServiceState) (t : PendingOcr)
    (h : st.pending.find? (fun u => u.tid == tid) = some t) :
    (complete_ocr oa det ok tid st).signalLog = st.signalLog ++ [(t.tid, t.key)] := by
  rw [complete_ocr, h]

theorem complete_ocr_pending (oa : Bool) (det : String → List OcrRegion) (ok : Bool)
    (tid : ℕ) (st : ServiceState) (t : PendingOcr)
    (h : st.pending.find? (fun u => u.tid == tid) = some t) :
    (complete_ocr oa det ok tid st).pending =
      st.pending.filter (fun u => u.tid != tid) := by
  rw [complete_ocr, h]

/-- Completion always sets the readiness event of its session's entry
(the `finally` clause), whatever happened to the results. -/
theorem complete_ocr_event (oa : Bool) (det : String → List OcrRegion) (ok : Bool)
    (tid : ℕ) (st : ServiceState) (t : PendingOcr)
    (h : st.pending.find? (fun u => u.tid == tid) = some t) :
    (slookup t.key (complete_ocr oa det ok tid st).sessions).map SessionCacheM.ocr_event =
      (slookup t.key st.sessions).map (fun _ => true) := by
  rw [complete_ocr, h]
  dsimp only
  by_cases hoa : (oa && ok) = true
  · rw [if_pos hoa, slookup_supdate_self, slookup_supdate_self, Option.map_map,
      Option.map_map]
    rcases slookup t.key st.sessions with - | c <;> rfl
  · rw [if_neg hoa, slookup_supdate_self, Option.map_map]
    rcases slookup t.key st.sessions with - | c <;> rfl

theorem complete_ocr_other (oa : Bool) (det : String → List OcrRegion) (ok : Bool)
    (tid : ℕ) (st : ServiceState) (t : PendingOcr) (k : String)
    (h : st.pending.find? (fun u => u.tid == tid) = some t) (hk : k ≠ t.key) :
    slookup k (complete_ocr oa det ok tid st).sessions = slookup k st.sessions := by
  rw [complete_ocr, h]
  dsimp only
  by_cases hoa : (oa && ok) = true
  · rw [if_pos hoa, slookup_supdate_ne _ _ _ hk, slookup_supdate_ne _ _ _ hk]
  · rw [if_neg hoa, slookup_supdate_ne _ _ _ hk]

/-- A completion whose captured id no longer matches the entry's current
id changes nothing in the entry except setting the readiness event. -/
theorem complete_ocr_stale (oa : Bool) (det : String → List OcrRegion) (ok : Bool)
    (tid : ℕ) (st : ServiceState) (t : PendingOcr) (c : SessionCacheM)
    (hfind : st.pending.find? (fun u => u.tid == tid) = some t)
    (hc : slookup t.key st.sessions = some c)
    (hstale : c.screenshot_id ≠ some t.current_id) :
    slookup t.key (complete_ocr oa det ok tid st).sessions =
      some { c with ocr_event := true } := by
  rw [complete_ocr, hfind]
  dsimp only
  by_cases hoa : (oa && ok) = true
  · rw [if_pos hoa, slookup_supdate_self, slookup_supdate_self, hc]
    simp only [Option.map_some']
    rw [if_neg hstale]
  · rw [if_neg hoa, slookup_supdate_self, hc]
    simp only [Option.map_some']

/-- A completion whose captured id still matches publishes its results
and sets the readiness event. -/
theorem complete_ocr_fresh (det : String → List OcrRegion)
    (tid : ℕ) (st : ServiceState) (t : PendingOcr) (c : SessionCacheM)
    (hfind : st.pending.find? (fun u => u.tid == tid) = some t)
    (hc : slookup t.key st.sessions = some c)
    (hmatch : c.screenshot_id = some t.current_id) :
    slookup t.key (complete_ocr true det true tid st).sessions =
      some { c with ocr_results := some (det t.screenshot), ocr_event := true } := by
  rw [complete_ocr, hfind]
  dsimp only
  have htt : (true && true) = true := rfl
  rw [if_pos htt, slookup_supdate_self, slookup_supdate_self, hc]
  simp only [Option.map_some']
  rw [if_pos hmatch]

/-- The three possible state effects of `resolve`: session entry only
touched by creation; or the named session gains on-demand OCR results;
or only the vision-model flag is set. -/
theorem resolveM_state (oa : Bool) (det : String → List OcrRegion)
    (vp : String → String → Option (ℤ × ℤ)) (key method : String)
    (otext odesc : Option String) (thr : Option ℚ) (st : ServiceState) :
    (resolveM oa det vp key method otext odesc thr st).1 =
      { st with sessions := ensureSession key st.sessions } ∨
    (method = "ocr" ∧
      optTruthy (((slookup key (ensureSession key st.sessions)).getD
        SessionCacheM.empty).screenshot_b64) = true ∧
      ((slookup key (ensureSession key st.sessions)).getD
        SessionCacheM.empty).ocr_results = none ∧
      (resolveM oa det vp key method otext odesc thr st).1 =
        { st with
            sessions := supdate key
              (fun c => { c with
                ocr_results := some (det ((((slookup key
                  (ensureSession key st.sessions)).getD
                    SessionCacheM.empty).screenshot_b64).getD "")) })
              (ensureSession key st.sessions) }) ∨
    (resolveM oa det vp key method otext odesc thr st).1 =
      { st with sessions := ensureSession key st.sessions, visionLoaded := true } := by
  unfold resolveM
  dsimp only
  split
  · next htruthy =>
    split
    · next hmethod =>
      split
      · left; rfl
      · next hres =>
        split
        · right; left
          refine ⟨hmethod, ?_, hres, rfl⟩
          rcases Bool.and_eq_true_iff.1 htruthy with ⟨hb, -⟩
          exact hb
        · left; rfl
    · split
      · split
        · split
          · right; right; rfl
          · right; right; rfl
        · left; rfl
      · left; rfl
  · left; rfl

/-- A deterministic stand-in detector used for concrete witnesses. -/
def detStub (img : String) : List OcrRegion :=
  [⟨"0".data, img.data, 1, ⟨0, 0, 2, 2⟩⟩]

/-- A deterministic stand-in vision predictor for concrete witnesses. -/
def vpStub : String → String → Option (ℤ × ℤ) := fun _ _ => some (1, 2)

/-- C9. Resolve frame effect: a resolve call never touches the pending
tasks, the task counter or the signal log; entries of other session keys
are untouched; the named session's stored screenshot id, image bytes and
readiness event are unchanged, and the only field resolve may write is
the named session's detected regions (set to the detector's output on
the stored image by the on-demand text-match path); a resolve on an
unknown session key only creates the empty entry. -/
theorem C9_resolve_frame_effect :
    ∀ (oa : Bool) (det : String → List OcrRegion)
      (vp : String → String → Option (ℤ × ℤ)) (key method : String)
      (otext odesc : Option String) (thr : Option ℚ) (st : ServiceState),
    (resolveM oa det vp key method otext odesc thr st).1.pending = st.pending ∧
    (resolveM oa det vp key method otext odesc thr st).1.nextTid = st.nextTid ∧
    (resolveM oa det vp key method otext odesc thr st).1.signalLog = st.signalLog ∧
    (∀ k, k ≠ key →
      slookup k (resolveM oa det vp key method otext odesc thr st).1.sessions =
        slookup k st.sessions) ∧
    (∀ c0, slookup key st.sessions = some c0 →
      ∃ c', slookup key (resolveM oa det vp key method otext odesc thr st).1.sessions =
          some c' ∧
        c'.screenshot_id = c0.screenshot_id ∧
        c'.screenshot_b64 = c0.screenshot_b64 ∧
        c'.ocr_event = c0.ocr_event ∧
        (c'.ocr_results = c0.ocr_results ∨
          (method = "ocr" ∧ c0.ocr_results = none ∧
            c'.ocr_results = some (det (c0.screenshot_b64.getD ""))))) ∧
    (slookup key st.sessions = none →
      slookup key (resolveM oa det vp key method otext odesc thr st).1.sessions =
        some SessionCacheM.empty) := by
  intro oa det vp key method otext odesc thr st
  rcases resolveM_state oa det vp key method otext odesc thr st with
    h | ⟨hm, htr, hres, h⟩ | h
  · rw [h]
    refine ⟨rfl, rfl, rfl, fun k hk => slookup_ensure_ne k key _ hk, ?_, ?_⟩
    · intro c0 hc0
      refine ⟨c0, ?_, rfl, rfl, rfl, Or.inl rfl⟩
      show slookup key (ensureSession key st.sessions) = some c0
      rw [slookup_ensure_self, hc0]
      rfl
    · intro hc0
      show slookup key (ensureSession key st.sessions) = some SessionCacheM.empty
      rw [slookup_ensure_self, hc0]
      rfl
  · rw [h]
    have hgetDeq : ∀ c0, slookup key st.sessions = some c0 →
        (slookup key (ensureSession key st.sessions)).getD SessionCacheM.empty = c0 := by
      intro c0 hc0
      rw [slookup_ensure_self, hc0]
      rfl
    refine ⟨rfl, rfl, rfl, ?_, ?_, ?_⟩
    · intro k hk
      show slookup k (supdate key _ (ensureSession key st.sessions)) = _
      rw [slookup_supdate_ne _ _ _ hk, slookup_ensure_ne _ _ _ hk]
    · intro c0 hc0
      have hce : slookup key (ensureSession key st.sessions) = some c0 := by
        rw [slookup_ensure_self, hc0]
        rfl
      have hgd := hgetDeq c0 hc0
      refine ⟨{ c0 with ocr_results := some (det (c0.screenshot_b64.getD "")) }, ?_,
        rfl, rfl, rfl, Or.inr ⟨hm, ?_, rfl⟩⟩
      · show slookup key (supdate key _ (ensureSession key st.sessions)) = _
        rw [slookup_supdate_self, hce]
        simp only [Option.map_some']
        rfl
      · rw [← hgd]
        exact hres
    · intro hc0
      exfalso
      have hempty : (slookup key (ensureSession key st.sessions)).getD
          SessionCacheM.empty = SessionCacheM.empty := by
        rw [slookup_ensure_self, hc0]
        rfl
      rw [hempty] at htr
      cases htr
  · rw [h]
    refine ⟨rfl, rfl, rfl, fun k hk => slookup_ensure_ne k key _ hk, ?_, ?_⟩
    · intro c0 hc0
      refine ⟨c0, ?_, rfl, rfl, rfl, Or.inl rfl⟩
      show slookup key (ensureSession key st.sessions) = some c0
      rw [slookup_ensure_self, hc0]
      rfl
    · intro hc0
      show slookup key (ensureSession key st.sessions) = some SessionCacheM.empty
      rw [slookup_ensure_self, hc0]
      rfl

/-- Witness for C9 at a concrete state and call. -/
theorem C9_resolve_frame_effect_witness :
    slookup "other" (resolveM true detStub vpStub "s" "zzz" none none none
      initState).1.sessions = slookup "other" initState.sessions :=
  (C9_resolve_frame_effect true detStub vpStub "s" "zzz" none none none
    initState).2.2.2.1 "other" (by decide)

/-- Tids of pending tasks are below the freshness counter. -/
def WellFormed (st : ServiceState) : Prop :=
  ∀ u ∈ st.pending, u.tid < st.nextTid

/-- Evaluation of the text-match resolve on a freshly ingested entry
(no cached regions): it runs on-demand detection on the stored image,
stores those regions, and resolves against them. -/
theorem resolveM_ocr_on (det : String → List OcrRegion)
    (vp : String → String → Option (ℤ × ℤ)) (key textq : String) (thr : Option ℚ)
    (st : ServiceState) (sid b64 : String) (ev : Bool)
    (hc : slookup key st.sessions = some ⟨some sid, some b64, none, ev⟩)
    (hsid : sid ≠ "") (hb : b64 ≠ "") :
    resolveM true det vp key "ocr" (some textq) none thr st =
      ({ st with
          sessions := supdate key
            (fun c => { c with ocr_results := some (det b64) }) st.sessions },
       ocrOutcome sid (resolve_ocr_text textq.data (det b64) (thr.getD (8/10)))) := by
  have hens : ensureSession key st.sessions = st.sessions :=
    ensure_of_isSome _ _ (by rw [hc]; rfl)
  simp only [resolveM, hens, hc, Option.getD_some, optTruthy, hb, hsid]
  norm_num

/-- C1 (amended: the superseding ingest must store a different
screenshot id, as derived fingerprints of byte-identical prefixes
collide — see the counterexample).  Mechanism: a completing detection
task compares its captured screenshot id against the entry's current id
and on mismatch changes nothing but the readiness event — never the
detected regions.  Scenario: ingest A, ingest B (ids distinct), then A's
task completes: the entry holds B's id and image with no detected
regions, and a subsequent text-match resolve resolves against the
detector's output on B's image, never A's. -/
theorem C1_staleness :
    (∀ (oa : Bool) (det : String → List OcrRegion) (ok : Bool) (tid : ℕ)
        (st : ServiceState) (t : PendingOcr) (c : SessionCacheM),
      st.pending.find? (fun u => u.tid == tid) = some t →
      slookup t.key st.sessions = some c →
      c.screenshot_id ≠ some t.current_id →
      slookup t.key (complete_ocr oa det ok tid st).sessions =
        some { c with ocr_event := true }) ∧
    (∀ (oa : Bool) (det : String → List OcrRegion) (ok : Bool)
        (st0 : ServiceState) (key imgA imgB : String) (extA extB : Option String),
      WellFormed st0 →
      chosenId imgB extB ≠ chosenId imgA extA →
      slookup key (complete_ocr oa det ok st0.nextTid
          ((ingest_screenshot key imgB extB
            ((ingest_screenshot key imgA extA st0).1)).1)).sessions =
        some ⟨some (chosenId imgB extB), some imgB, none, true⟩ ∧
      (∀ (vp : String → String → Option (ℤ × ℤ)) (textq : String) (thr : Option ℚ),
        imgB ≠ "" →
        (resolveM true det vp key "ocr" (some textq) none thr
          (complete_ocr oa det ok st0.nextTid
            ((ingest_screenshot key imgB extB
              ((ingest_screenshot key imgA extA st0).1)).1))).2 =
          ocrOutcome (chosenId imgB extB)
            (resolve_ocr_text textq.data (det imgB) (thr.getD (8/10))))) := by
  refine ⟨fun oa det ok tid st t c hfind hc hne =>
    complete_ocr_stale oa det ok tid st t c hfind hc hne, ?_⟩
  intro oa det ok st0 key imgA imgB extA extB hwf hne
  have hfind : (((ingest_screenshot key imgB extB
      ((ingest_screenshot key imgA extA st0).1)).1).pending.find?
        (fun u => u.tid == st0.nextTid)) =
      some ⟨st0.nextTid, key, chosenId imgA extA, imgA⟩ := by
    rw [ingest_pending, ingest_pending, List.find?_append, List.find?_append]
    have h0 : st0.pending.find? (fun u => u.tid == st0.nextTid) = none := by
      rw [List.find?_eq_none]
      intro u hu
      simp only [beq_iff_eq]
      exact Nat.ne_of_lt (hwf u hu)
    rw [h0]
    simp
  have hentry : slookup key ((ingest_screenshot key imgB extB
      ((ingest_screenshot key imgA extA st0).1)).1).sessions =
      some ⟨some (chosenId imgB extB), some imgB, none, false⟩ :=
    ingest_entry key imgB extB _
  have hstale := complete_ocr_stale oa det ok st0.nextTid _
    ⟨st0.nextTid, key, chosenId imgA extA, imgA⟩
    ⟨some (chosenId imgB extB), some imgB, none, false⟩ hfind hentry
    (by
      intro hcontra
      exact hne (Option.some_injective _ hcontra))
  refine ⟨hstale, ?_⟩
  intro vp textq thr hb
  rw [resolveM_ocr_on det vp key textq thr _ (chosenId imgB extB) imgB true hstale
    (chosenId_ne_empty imgB extB) hb]

/-- Witness for C1 at a concrete state. -/
theorem C1_staleness_witness :
    slookup "s" (complete_ocr true detStub true 0
      ⟨[("s", ⟨some "id2", some "x", none, false⟩)], [⟨0, "s", "id1", "x"⟩],
        1, [], false⟩).sessions =
      some ⟨some "id2", some "x", none, true⟩ :=
  C1_staleness.1 true detStub true 0
    ⟨[("s", ⟨some "id2", some "x", none, false⟩)], [⟨0, "s", "id1", "x"⟩], 1, [], false⟩
    ⟨0, "s", "id1", "x"⟩ ⟨some "id2", some "x", none, false⟩
    (by decide) (by decide) (by decide)

/-- Counterexample to C1 as stated: two distinct screenshots whose
base64 payloads agree on the first 1024 characters receive the same
derived fingerprint, so when A's detection completes after B's ingest
the id comparison passes and A's regions are published into the entry
now holding screenshot B — detected regions of the superseded pass are
observed against the newer screenshot. -/
theorem C1_staleness_counterexample :
    String.mk (List.replicate 1024 'a' ++ ['b']) ≠
      String.mk (List.replicate 1024 'a' ++ ['c']) ∧
    detStub (String.mk (List.replicate 1024 'a' ++ ['b'])) ≠
      detStub (String.mk (List.replicate 1024 'a' ++ ['c'])) ∧
    slookup "s" (complete_ocr true detStub true 0
      ((ingest_screenshot "s" (String.mk (List.replicate 1024 'a' ++ ['c'])) none
        ((ingest_screenshot "s" (String.mk (List.replicate 1024 'a' ++ ['b'])) none
          initState).1)).1)).sessions =
      some ⟨some (chosenId (String.mk (List.replicate 1024 'a' ++ ['c'])) none),
        some (String.mk (List.replicate 1024 'a' ++ ['c'])),
        some (detStub (String.mk (List.replicate 1024 'a' ++ ['b']))), true⟩ := by
  have htake : (String.mk (List.replicate 1024 'a' ++ ['c'])).data.take 1024 =
      (String.mk (List.replicate 1024 'a' ++ ['b'])).data.take 1024 := by
    show (List.replicate 1024 'a' ++ ['c']).take 1024 =
      (List.replicate 1024 'a' ++ ['b']).take 1024
    rw [List.take_left' (List.length_replicate 1024 'a'),
      List.take_left' (List.length_replicate 1024 'a')]
  have hdata : (String.mk (List.replicate 1024 'a' ++ ['b'])).data ≠
      (String.mk (List.replicate 1024 'a' ++ ['c'])).data := by
    show List.replicate 1024 'a' ++ ['b'] ≠ List.replicate 1024 'a' ++ ['c']
    intro h
    have := List.append_cancel_left h
    cases this
  have hne : String.mk (List.replicate 1024 'a' ++ ['b']) ≠
      String.mk (List.replicate 1024 'a' ++ ['c']) := by
    intro h
    exact hdata (congrArg String.data h)
  have hid : chosenId (String.mk (List.replicate 1024 'a' ++ ['c'])) none =
      chosenId (String.mk (List.replicate 1024 'a' ++ ['b'])) none :=
    congrArg String.mk (screenshotFingerprint_take _ _ htake)
  refine ⟨hne, ?_, ?_⟩
  · intro h
    rw [detStub, detStub] at h
    have h2 := List.head_eq_of_cons_eq h
    have h3 : (String.mk (List.replicate 1024 'a' ++ ['b'])).data =
        (String.mk (List.replicate 1024 'a' ++ ['c'])).data := by
      have := congrArg OcrRegion.text h2
      exact this
    exact hdata h3
  · have hfind : (((ingest_screenshot "s"
        (String.mk (List.replicate 1024 'a' ++ ['c'])) none
        ((ingest_screenshot "s" (String.mk (List.replicate 1024 'a' ++ ['b'])) none
          initState).1)).1).pending.find? (fun u => u.tid == 0)) =
        some ⟨0, "s", chosenId (String.mk (List.replicate 1024 'a' ++ ['b'])) none,
          String.mk (List.replicate 1024 'a' ++ ['b'])⟩ := by
      rw [ingest_pending, ingest_pending]
      show List.find? _ (([] ++ [_]) ++ [_]) = _
      rw [List.nil_append, List.find?_append, List.find?_cons]
      rfl
    have hentry := ingest_entry "s" (String.mk (List.replicate 1024 'a' ++ ['c'])) none
      ((ingest_screenshot "s" (String.mk (List.replicate 1024 'a' ++ ['b'])) none
        initState).1)
    have hfresh := complete_ocr_fresh detStub 0 _
      ⟨0, "s", chosenId (String.mk (List.replicate 1024 'a' ++ ['b'])) none,
        String.mk (List.replicate 1024 'a' ++ ['b'])⟩
      ⟨some (chosenId (String.mk (List.replicate 1024 'a' ++ ['c'])) none),
        some (String.mk (List.replicate 1024 'a' ++ ['c'])), none, false⟩
      hfind hentry (by exact congrArg some hid)
    exact hfresh

theorem find_filter_tid_ne (tid : ℕ) : ∀ l : List PendingOcr,
    (l.filter (fun u => u.tid != tid)).find? (fun u => u.tid == tid) = none := by
  intro l
  induction l with
  | nil => rfl
  | cons u rest ih =>
    by_cases h : u.tid = tid
    · simp [List.filter_cons, h, ih]
    · simp [List.filter_cons, h, List.find?_cons, ih]

/-- C6. Readiness signal discipline (amended).  Whenever a pending
detection task completes — whatever the outcome (`oa`, `ok`) — it sets
the readiness event of its session's entry, is retired from the pending
list, logs exactly one signal, and cannot complete a second time; and
any subsequent ingest for the key resets the readiness event.  The
original claim's further assertion that a task of a superseded ingest
never signals readiness for a later ingest cycle is false (see the
counterexample): the entry's event object is shared across cycles, so a
stale task's completion wakes waiters of the current cycle. -/
theorem C6_signal_discipline (oa : Bool) (det : String → List OcrRegion) (ok : Bool)
    (tid : ℕ) (st : ServiceState) (t : PendingOcr)
    (hfind : st.pending.find? (fun u => u.tid == tid) = some t) :
    (slookup t.key (complete_ocr oa det ok tid st).sessions).map
        SessionCacheM.ocr_event =
      (slookup t.key st.sessions).map (fun _ => true) ∧
    (complete_ocr oa det ok tid st).signalLog = st.signalLog ++ [(t.tid, t.key)] ∧
    (complete_ocr oa det ok tid st).pending.find? (fun u => u.tid == tid) = none ∧
    (∀ oa2 det2 ok2, complete_ocr oa2 det2 ok2 tid (complete_ocr oa det ok tid st) =
      complete_ocr oa det ok tid st) ∧
    (∀ b64 ext, (slookup t.key ((ingest_screenshot t.key b64 ext
        (complete_ocr oa det ok tid st)).1).sessions).map SessionCacheM.ocr_event =
      some false) := by
  have hretired : (complete_ocr oa det ok tid st).pending.find?
      (fun u => u.tid == tid) = none := by
    rw [complete_ocr_pending oa det ok tid st t hfind]
    exact find_filter_tid_ne tid st.pending
  refine ⟨complete_ocr_event oa det ok tid st t hfind,
    complete_ocr_log oa det ok tid st t hfind, hretired,
    fun oa2 det2 ok2 => complete_ocr_not_found oa2 det2 ok2 tid _ hretired,
    fun b64 ext => ?_⟩
  rw [ingest_entry]
  rfl

/-- Witness for C6 at a concrete one-task state. -/
theorem C6_signal_discipline_witness :
    (slookup "s" (complete_ocr true detStub true 0
        ⟨[("s", ⟨some "i", some "x", none, false⟩)], [⟨0, "s", "i", "x"⟩],
          1, [], false⟩).sessions).map SessionCacheM.ocr_event =
      (slookup "s" ([("s", (⟨some "i", some "x", none, false⟩ : SessionCacheM))])).map
        (fun _ => true) ∧
    (complete_ocr true detStub true 0
        ⟨[("s", ⟨some "i", some "x", none, false⟩)], [⟨0, "s", "i", "x"⟩],
          1, [], false⟩).signalLog = [] ++ [(0, "s")] := by
  have h := C6_signal_discipline true detStub true 0
    ⟨[("s", ⟨some "i", some "x", none, false⟩)], [⟨0, "s", "i", "x"⟩], 1, [], false⟩
    ⟨0, "s", "i", "x"⟩ (by decide)
  exact ⟨h.1, h.2.1⟩

/-- Counterexample to C6 as stated: the detection task of ingest cycle A
(task id 0) completes after a second ingest B replaced the screenshot;
its `finally` sets the shared readiness event, so cycle B's entry reads
ready (`ocr_event = true`) while B's own task (id 1) is still pending —
a superseded task signalled readiness for a later ingest cycle. -/
theorem C6_signal_discipline_counterexample :
    slookup "s" (complete_ocr false detStub false 0
        ((ingest_screenshot "s" "imgB" (some "ib")
          ((ingest_screenshot "s" "imgA" (some "ia") initState).1)).1)).sessions =
      some ⟨some "ib", some "imgB", none, true⟩ ∧
    (complete_ocr false detStub false 0
        ((ingest_screenshot "s" "imgB" (some "ib")
          ((ingest_screenshot "s" "imgA" (some "ia") initState).1)).1)).pending =
      [⟨1, "s", "ib", "imgB"⟩] ∧
    (complete_ocr false detStub false 0
        ((ingest_screenshot "s" "imgB" (some "ib")
          ((ingest_screenshot "s" "imgA" (some "ia") initState).1)).1)).signalLog =
      [(0, "s")] := by
  refine ⟨?_, ?_, ?_⟩ <;> decide

/-- C8. Fingerprint determinism and ingest idempotence.  Without an
external id the returned screenshot id is a fixed-length (16-character)
truncation of a hash computed over at most the first 1024 characters of
the encoded image: any two payloads agreeing on that bounded prefix (in
particular identical payloads) receive identical ids, in any session and
from any state.  Re-ingesting the identical image and id and resolving
by text match against a deterministic detector yields the identical
outcome both times. -/
theorem C8_fingerprint_idempotence :
    (∀ (key key2 b64 b64' : String) (st st2 : ServiceState),
      b64.data.take 1024 = b64'.data.take 1024 →
      (ingest_screenshot key b64 none st).2 = (ingest_screenshot key2 b64' none st2).2) ∧
    (∀ (key b64 : String) (st : ServiceState),
      ((ingest_screenshot key b64 none st).2).length = 16) ∧
    (∀ (det : String → List OcrRegion) (vp : String → String → Option (ℤ × ℤ))
      (key img textq : String) (ext : Option String) (thr : Option ℚ)
      (st : ServiceState), img ≠ "" →
      (resolveM true det vp key "ocr" (some textq) none thr
        ((ingest_screenshot key img ext
          ((resolveM true det vp key "ocr" (some textq) none thr
            ((ingest_screenshot key img ext st).1)).1)).1)).2 =
      (resolveM true det vp key "ocr" (some textq) none thr
        ((ingest_screenshot key img ext st).1)).2) := by
  refine ⟨?_, ?_, ?_⟩
  · intro key key2 b64 b64' st st2 h
    exact congrArg String.mk (screenshotFingerprint_take b64.data b64'.data h)
  · intro key b64 st
    exact screenshotFingerprint_length b64.data
  · intro det vp key img textq ext thr st himg
    have h1 := resolveM_ocr_on det vp key textq thr
      ((ingest_screenshot key img ext st).1) (chosenId img ext) img false
      (ingest_entry key img ext st) (chosenId_ne_empty img ext) himg
    have h2 := resolveM_ocr_on det vp key textq thr
      ((ingest_screenshot key img ext
        ((resolveM true det vp key "ocr" (some textq) none thr
          ((ingest_screenshot key img ext st).1)).1)).1) (chosenId img ext) img false
      (ingest_entry key img ext _) (chosenId_ne_empty img ext) himg
    rw [h2, h1]

/-- Witness for C8: the idempotence conjunct at a concrete trace. -/
theorem C8_fingerprint_idempotence_witness :
    (resolveM true detStub vpStub "s" "ocr" (some "x") none none
      ((ingest_screenshot "s" "x" none
        ((resolveM true detStub vpStub "s" "ocr" (some "x") none none
          ((ingest_screenshot "s" "x" none initState).1)).1)).1)).2 =
    (resolveM true detStub vpStub "s" "ocr" (some "x") none none
      ((ingest_screenshot "s" "x" none initState).1)).2 :=
  C8_fingerprint_idempotence.2.2 detStub vpStub "s" "x" "x" none none initState
    (by decide)

/-! ## vision_internvl.py : `predict_click_coordinates` — the
process-wide inference gate (`self._inference_lock`, an asyncio.Lock
created once per model instance in `BaseVisionModel.__init__`; the
service memoizes a single model, so all prediction calls share it).
A call's life: it arrives at `async with self._inference_lock` (joins
the waiter queue), is admitted when the lock is free and it is the
oldest waiter (asyncio.Lock wakes waiters in arrival order), runs the
inference body, and releases on exit.  States record who is currently
executing inference (`inside`), the waiter queue, and ghost logs of
arrival and admission order. -/

structure LockState where
  locked : Bool
  inside : List ℕ
  queue : List ℕ
  reqLog : List ℕ
  acqLog : List ℕ

def initLock : LockState := ⟨false, [], [], [], []⟩

/-- One scheduler step of the gate: a call arrives, is admitted, or
finishes.  Admission requires the lock free and the call to be the
oldest waiter; it marks the lock held and starts the inference body.
Finishing requires the call to be executing and frees the lock. -/
inductive lockStep : LockState → LockState → Prop where
  | arrive (c : ℕ) (s : LockState) :
      lockStep s { s with
        queue := s.queue ++ [c]
        reqLog := s.reqLog ++ [c] }
  | enter (c : ℕ) (s : LockState) (hfree : s.locked = false)
      (hhead : s.queue.head? = some c) :
      lockStep s { s with
        locked := true
        inside := s.inside ++ [c]
        queue := s.queue.tail
        acqLog := s.acqLog ++ [c] }
  | finish (c : ℕ) (s : LockState) (hin : c ∈ s.inside) :
      lockStep s { s with
        locked := false
        inside := s.inside.erase c }

/-- States reachable from the initial (free) gate. -/
inductive lockReach : LockState → Prop where
  | init : lockReach initLock
  | step (s s' : LockState) : lockReach s → lockStep s s' → lockReach s'

theorem lockInv (s : LockState) (h : lockReach s) :
    s.inside.length ≤ 1 ∧ (s.locked = false → s.inside = []) ∧
      s.acqLog ++ s.queue = s.reqLog := by
  induction h with
  | init => exact ⟨by decide, fun _ => rfl, rfl⟩
  | step s s' hr hstep ih =>
    rcases ih with ⟨hlen, hfree, hlog⟩
    cases hstep with
    | arrive c s =>
      refine ⟨hlen, hfree, ?_⟩
      show s.acqLog ++ (s.queue ++ [c]) = s.reqLog ++ [c]
      rw [← List.append_assoc, hlog]
    | enter c s hf hh =>
      have hins : s.inside = [] := hfree hf
      refine ⟨?_, ?_, ?_⟩
      · show (s.inside ++ [c]).length ≤ 1
        rw [hins]
        exact Nat.le_refl 1
      · intro hcontra
        cases hcontra
      · show s.acqLog ++ [c] ++ s.queue.tail = s.reqLog
        have hq : s.queue = c :: s.queue.tail := by
          rcases hqe : s.queue with - | ⟨a, rest⟩
          · rw [hqe] at hh
            cases hh
          · rw [hqe] at hh
            injection hh with ha
            rw [ha]
            rfl
        rw [List.append_assoc, List.singleton_append, ← hq, hlog]
    | finish c s hin =>
      have hsing : s.inside = [c] := by
        rcases he : s.inside with - | ⟨a, - | ⟨b, rest⟩⟩
        · rw [he] at hin
          cases hin
        · rw [he] at hin
          rcases List.mem_singleton.1 hin with rfl
          rfl
        · rw [he] at hlen
          simp at hlen
      refine ⟨?_, ?_, hlog⟩
      · show (s.inside.erase c).length ≤ 1
        rw [hsing, List.erase_cons_head]
        decide
      · intro _
        show s.inside.erase c = []
        rw [hsing, List.erase_cons_head]

set_option maxRecDepth 4000

/-- C7. Inference serialization: in every state the gate can reach, at
most one call is executing the inference body (two concurrent
prediction calls never overlap — their inference executions are
disjoint in any interleaving, so the wall time of two concurrent calls
is at least the sum of their inference durations), and admission is
first-come-first-served: the admission log followed by the current
waiter queue is exactly the arrival log. -/
theorem C7_inference_serialization (s : LockState) (h : lockReach s) :
    (∀ a b, a ∈ s.inside → b ∈ s.inside → a = b) ∧
      s.acqLog ++ s.queue = s.reqLog := by
  rcases lockInv s h with ⟨hlen, -, hlog⟩
  refine ⟨?_, hlog⟩
  intro a b ha hb
  rcases he : s.inside with - | ⟨x, - | ⟨y, rest⟩⟩
  · rw [he] at ha
    cases ha
  · rw [he] at ha hb
    rcases List.mem_singleton.1 ha with rfl
    rcases List.mem_singleton.1 hb with rfl
    rfl
  · rw [he] at hlen
    simp at hlen

/-- Witness for C7: the state after one call arrives and is admitted. -/
theorem C7_inference_serialization_witness :
    (∀ a b, a ∈ (LockState.mk true [7] [] [7] [7]).inside →
      b ∈ (LockState.mk true [7] [] [7] [7]).inside → a = b) ∧
      (LockState.mk true [7] [] [7] [7]).acqLog ++
        (LockState.mk true [7] [] [7] [7]).queue =
        (LockState.mk true [7] [] [7] [7]).reqLog := by
  refine C7_inference_serialization ⟨true, [7], [], [7], [7]⟩ ?_
  have h1 : lockReach ⟨false, [], [7], [7], []⟩ :=
    lockReach.step initLock _ lockReach.init (lockStep.arrive 7 initLock)
  exact lockReach.step ⟨false, [], [7], [7], []⟩ _ h1
    (lockStep.enter 7 ⟨false, [], [7], [7], []⟩ rfl rfl)

end Grounding
